import Mathlib

/-!
The flash sale of gin-mall: cache, lock, reservation and durable persistence.

A shallow embedding of the flash-sale ("skill goods") pipeline of gin-mall:

* `service/skill_goods.go`: `syncPoructInfoToRedis`, `releaseLock`,
  `productFieldsToSkillProduct`, `ListSkillGoodsByIDs`, `GetSkillGoodsByID`,
  `ListSkillGoods`, `SkillProduct` and the Lua script `preDeductStockLua`;
* `repository/db/dao/skill_goods.go`: `ListSkillGoods`, `SkillGoods`;
* `repository/rabbitmq/rabbitmq.go`: `PublishSkillMessage`,
  `StartDeductStockConsumer`, `productMySQLStock`.

Redis is an explicit key space, MySQL an explicit list of rows, RabbitMQ an
explicit list of published bodies and a list of deliveries. Every call to a
backend takes a fault argument that says whether the connection fails at that
call. Time is not part of the model: `Expire` and the lease of the lock leave
the key space as it is. The numbers of the Lua script are doubles (`LuaNumber`).
-/

namespace GinMall

/-! ## Decimal numerals (`strconv`, the argument writer of go-redis, Redis itself) -/

/-- The largest `uint64`. -/
def maxUint64 : Nat := 2 ^ 64 - 1

/-- The largest `int64`. -/
def maxInt64 : Int := 2 ^ 63 - 1

/-- The smallest `int64`. -/
def minInt64 : Int := -(2 ^ 63)

/-- Whether an integer is an `int64`. -/
def inInt64 (v : Int) : Bool := decide (minInt64 ≤ v) && decide (v ≤ maxInt64)

/-- Go's conversion `int(x)` of a `uint` on a 64-bit platform: two's complement wrap. -/
def uintToInt (n : Nat) : Int :=
  if n % 2 ^ 64 < 2 ^ 63 then ((n % 2 ^ 64 : Nat) : Int) else ((n % 2 ^ 64 : Nat) : Int) - 2 ^ 64

/-- The character of a decimal digit. -/
def digitChar (d : Nat) : Char := Char.ofNat (48 + d)

/-- Whether a character is one of `0` .. `9`. -/
def isDigit (c : Char) : Bool := decide (48 ≤ c.toNat) && decide (c.toNat ≤ 57)

/-- The value of a decimal digit character. -/
def digitVal (c : Char) : Nat := c.toNat - 48

/-- The decimal digits of `n`, most significant first; `fuel` bounds the number of digits. -/
def natDigits : Nat → Nat → List Char
  | 0, _ => []
  | fuel + 1, n =>
    if n < 10 then [digitChar n] else natDigits fuel (n / 10) ++ [digitChar (n % 10)]

/-- `strconv.FormatUint(n, 10)`, also what go-redis writes for a `uint` argument. -/
def FormatUint (n : Nat) : String := String.mk (natDigits (n + 1) n)

/-- `strconv.FormatInt(v, 10)` and `strconv.Itoa`, also what go-redis writes for an `int`
argument and what Redis stores after `HINCRBY`. -/
def FormatInt (v : Int) : String :=
  if v < 0 then String.mk ('-' :: natDigits (v.natAbs + 1) v.natAbs)
  else String.mk (natDigits (v.natAbs + 1) v.natAbs)

/-- The value of a run of decimal digits read left to right from accumulator `acc`;
`none` at the first character that is not a digit. -/
def digitsValue : Nat → List Char → Option Nat
  | acc, [] => some acc
  | acc, c :: cs => if isDigit c then digitsValue (acc * 10 + digitVal c) cs else none

/-- A non-empty run of decimal digits. -/
def parseDecimal : List Char → Option Nat
  | [] => none
  | c :: cs => digitsValue 0 (c :: cs)

/-- An optional minus sign and a non-empty run of decimal digits. -/
def parseSignedDecimal : List Char → Option Int
  | [] => none
  | c :: cs =>
    if c = '-' then Option.map (fun (n : Nat) => -(n : Int)) (parseDecimal cs)
    else Option.map (fun (n : Nat) => (n : Int)) (parseDecimal (c :: cs))

/-- The loop of `strconv.ParseUint(s, 10, 64)`: the value returned and whether the
error is nil. A character that is not a digit ends the parse with 0 (syntax error), an
overflow ends it with the largest `uint64` (range error). -/
def parseUintLoop : Nat → List Char → Nat × Bool
  | n, [] => (n, true)
  | n, c :: cs =>
    if !isDigit c then (0, false)
    else if n ≥ maxUint64 / 10 + 1 then (maxUint64, false)
    else if n * 10 + digitVal c > maxUint64 then (maxUint64, false)
    else parseUintLoop (n * 10 + digitVal c) cs

/-- The call `strconv.ParseUint(s, 10, 64)`: the value and whether the error is nil. -/
def ParseUint (s : String) : Nat × Bool :=
  match s.data with
  | [] => (0, false)
  | c :: cs => parseUintLoop 0 (c :: cs)

/-- The number of binary digits of `n`; `fuel` bounds it. -/
def bitLength : Nat → Nat → Nat
  | 0, _ => 0
  | fuel + 1, n => if n = 0 then 0 else bitLength fuel (n / 2) + 1

/-- The double nearest to a natural number, as an integer: a number up to `2^53` is a
double; a larger one keeps its 53 leading binary digits, rounded to the nearest, a tie
to the even one. (From `2^1024` on the double is infinite, which `LuaNumber.ofInt`
adds.) -/
def roundNat (n : Nat) : Nat :=
  if n ≤ 2 ^ 53 then n
  else
    if 2 * (n % 2 ^ (bitLength (n + 1) n - 53)) < 2 ^ (bitLength (n + 1) n - 53) then
      n / 2 ^ (bitLength (n + 1) n - 53) * 2 ^ (bitLength (n + 1) n - 53)
    else if 2 ^ (bitLength (n + 1) n - 53) < 2 * (n % 2 ^ (bitLength (n + 1) n - 53)) then
      (n / 2 ^ (bitLength (n + 1) n - 53) + 1) * 2 ^ (bitLength (n + 1) n - 53)
    else if n / 2 ^ (bitLength (n + 1) n - 53) % 2 = 0 then
      n / 2 ^ (bitLength (n + 1) n - 53) * 2 ^ (bitLength (n + 1) n - 53)
    else (n / 2 ^ (bitLength (n + 1) n - 53) + 1) * 2 ^ (bitLength (n + 1) n - 53)

/-- The double nearest to an integer, as an integer. Lua numbers are doubles: the
script computes on these values. -/
def toDouble (v : Int) : Int :=
  if v < 0 then -((roundNat v.natAbs : Nat) : Int) else ((roundNat v.natAbs : Nat) : Int)

/-- The leading run of decimal digits and what follows it. -/
def takeDigits : List Char → List Char × List Char
  | [] => ([], [])
  | c :: cs =>
    if isDigit c then ((takeDigits cs).1 |>.cons c, (takeDigits cs).2) else ([], c :: cs)

/-- The value of a hexadecimal digit. -/
def hexVal (c : Char) : Option Nat :=
  if isDigit c then some (digitVal c)
  else if 97 ≤ c.toNat ∧ c.toNat ≤ 102 then some (c.toNat - 87)
  else if 65 ≤ c.toNat ∧ c.toNat ≤ 70 then some (c.toNat - 55)
  else none

/-- The integer reply Redis makes of the Lua number a script returns: the C conversion
`(long long)` of the double. A double outside `int64` converts to the smallest `int64`
on x86-64. -/
def luaToLongLong (d : Int) : Int := if inInt64 d = true then d else minInt64

/-- A Lua number with an integer value as the argument of a Redis command inside a
script: Redis writes it with 17 significant digits, which is the plain decimal numeral
below `10^17` in magnitude and a numeral with an exponent, no integer for Redis, from
there on. -/
def luaArgument (d : Int) : Option Int := if d.natAbs < 10 ^ 17 then some d else none

/-- A Lua number, which is a double: one with an integer value, one with the value
`m / 2^e` that is no integer (negated when `neg`), an infinity, or not a number. -/
inductive LuaNumber
  | int (d : Int)
  | frac (neg : Bool) (m e : Nat)
  | inf (neg : Bool)
  | nan
  deriving DecidableEq, Repr

/-- A natural number with a sign. -/
def signed (neg : Bool) (n : Nat) : Int := if neg then -(n : Int) else (n : Int)

/-- The number `2^1024`, from which on a double is infinite. -/
def doubleLimit : Nat := 2 ^ 256 * 2 ^ 256 * 2 ^ 256 * 2 ^ 256

/-- The double of an integer: infinite from `2^1024` on. -/
def LuaNumber.ofInt (v : Int) : LuaNumber :=
  if roundNat v.natAbs < doubleLimit then .int (toDouble v) else .inf (decide (v < 0))

/-- The double with the value `m * 2^e`, `m` below `2^53` or equal to it. -/
def LuaNumber.ofDyadic (neg : Bool) (m : Nat) (e : Int) : LuaNumber :=
  if 0 ≤ e then
    if m * 2 ^ e.toNat < doubleLimit then .int (signed neg (m * 2 ^ e.toNat)) else .inf neg
  else if m % 2 ^ (-e).toNat = 0 then .int (signed neg (m / 2 ^ (-e).toNat))
  else .frac neg m (-e).toNat

/-- The double nearest to the quotient `a / b` of two natural numbers, `b` not zero:
53 binary digits, fewer below `2^-1022`, rounded to the nearest, a tie to the even
one. -/
def LuaNumber.ofRatio (neg : Bool) (a b : Nat) : LuaNumber :=
  if a = 0 then .int 0
  else
    let k : Int := (bitLength (a + 1) a : Int) - (bitLength (b + 1) b : Int)
    let reaches : Bool :=
      if 0 ≤ k then decide (b * 2 ^ k.toNat ≤ a) else decide (b ≤ a * 2 ^ (-k).toNat)
    let e : Int := max ((if reaches then k else k - 1) - 52) (-1074)
    let num : Nat := if 0 ≤ e then a else a * 2 ^ (-e).toNat
    let den : Nat := if 0 ≤ e then b * 2 ^ e.toNat else b
    let m : Nat :=
      if 2 * (num % den) < den then num / den
      else if den < 2 * (num % den) then num / den + 1
      else if num / den % 2 = 0 then num / den
      else num / den + 1
    LuaNumber.ofDyadic neg m e

/-- The numerator of a finite Lua number over `LuaNumber.den`. -/
def LuaNumber.num : LuaNumber → Int
  | .int d => d
  | .frac neg m _ => signed neg m
  | _ => 0

/-- The denominator of a finite Lua number. -/
def LuaNumber.den : LuaNumber → Nat
  | .frac _ _ e => 2 ^ e
  | _ => 1

/-- Lua's `a < b` on numbers. -/
def LuaNumber.lt : LuaNumber → LuaNumber → Bool
  | .nan, _ => false
  | _, .nan => false
  | .inf true, .inf true => false
  | .inf true, _ => true
  | _, .inf true => false
  | .inf false, _ => false
  | _, .inf false => true
  | a, b => decide (a.num * b.den < b.num * a.den)

/-- Lua's unary minus. -/
def LuaNumber.neg : LuaNumber → LuaNumber
  | .int d => .int (-d)
  | .frac neg m e => .frac (!neg) m e
  | .inf neg => .inf (!neg)
  | .nan => .nan

/-- Lua's `a - b` on numbers: the double nearest to the difference. -/
def LuaNumber.sub : LuaNumber → LuaNumber → LuaNumber
  | .int a, .int b => LuaNumber.ofInt (a - b)
  | .nan, _ => .nan
  | _, .nan => .nan
  | .inf s, .inf t => if s = t then .nan else .inf s
  | .inf s, _ => .inf s
  | _, .inf t => .inf (!t)
  | a, b =>
    LuaNumber.ofRatio (decide (a.num * b.den - b.num * a.den < 0))
      (a.num * b.den - b.num * a.den).natAbs (a.den * b.den)

/-- The integer reply Redis makes of a Lua number: the conversion `(long long)`, which
drops the fraction; an infinity and a value that is no number convert like a double
outside `int64`. -/
def LuaNumber.toLongLong : LuaNumber → Int
  | .int d => luaToLongLong d
  | .frac neg m e => signed neg (m / 2 ^ e)
  | _ => minInt64

/-- A Lua number as the argument of a Redis command that takes an integer: only the text
of an integer value below `10^17` is one. -/
def LuaNumber.argument : LuaNumber → Option Int
  | .int d => luaArgument d
  | _ => none

/-- Whether a character is white space for C's `isspace`. -/
def isSpace (c : Char) : Bool := decide (c = ' ') || (decide (9 ≤ c.toNat) && decide (c.toNat ≤ 13))

/-- The input after its leading white space. -/
def dropSpaces : List Char → List Char
  | [] => []
  | c :: cs => if isSpace c then dropSpaces cs else c :: cs

/-- The lower-case form of an ASCII letter. -/
def asciiLower (c : Char) : Char :=
  if 65 ≤ c.toNat ∧ c.toNat ≤ 90 then Char.ofNat (c.toNat + 32) else c

/-- The input after a leading word, matched regardless of case. -/
def stripWord : List Char → List Char → Option (List Char)
  | [], cs => some cs
  | _ :: _, [] => none
  | w :: ws, c :: cs => if asciiLower c = w then stripWord ws cs else none

/-- The leading run of hexadecimal digits and what follows it. -/
def takeHex : List Char → List Char × List Char
  | [] => ([], [])
  | c :: cs =>
    if (hexVal c).isSome then ((takeHex cs).1 |>.cons c, (takeHex cs).2) else ([], c :: cs)

/-- The value of a run of digits in a base. -/
def digitsToNat (base : Nat) (cs : List Char) : Nat :=
  cs.foldl (fun acc c => acc * base + (hexVal c).getD 0) 0

/-- An exponent after its letter: an optional sign and a non-empty run of decimal
digits; `none` when there is no such exponent. -/
def scanExp (cs : List Char) : Option (Int × List Char) :=
  match cs with
  | [] => none
  | c :: r =>
    if c = '-' then
      match takeDigits r with
      | ([], _) => none
      | (ds, r1) => some (-(digitsToNat 10 ds : Int), r1)
    else if c = '+' then
      match takeDigits r with
      | ([], _) => none
      | (ds, r1) => some ((digitsToNat 10 ds : Int), r1)
    else
      match takeDigits (c :: r) with
      | ([], _) => none
      | (ds, r1) => some ((digitsToNat 10 ds : Int), r1)

/-- The exponent that follows a mantissa, when the letter `letter` and a well-formed
exponent are there; otherwise the exponent 0 and the input as it is. -/
def optExp (letter : Char) (cs : List Char) : Int × List Char :=
  match cs with
  | c :: r =>
    if asciiLower c = letter then
      match scanExp r with
      | some x => x
      | none => (0, cs)
    else (0, cs)
  | [] => (0, cs)

/-- The digits before and after an optional point, and what follows them; `take` reads
a run of digits. -/
def scanMantissa (take : List Char → List Char × List Char) (cs : List Char) :
    List Char × List Char × List Char :=
  match (take cs).2 with
  | '.' :: r => ((take cs).1, (take r).1, (take r).2)
  | r => ((take cs).1, [], r)

/-- The input after an optional `(...)` of letters, digits and underscores, which may
follow `nan`. -/
def skipNanPayload (cs : List Char) : List Char :=
  match cs with
  | '(' :: r =>
    match r.dropWhile (fun c => c.isAlphanum || decide (c = '_')) with
    | ')' :: r1 => r1
    | _ => cs
  | _ => cs

/-- The number with the value `n * base^p`, rounded to a double. -/
def LuaNumber.scaled (neg : Bool) (n base : Nat) (p : Int) : LuaNumber :=
  if 0 ≤ p then LuaNumber.ofRatio neg (n * base ^ p.toNat) 1
  else LuaNumber.ofRatio neg n (base ^ (-p).toNat)

/-- C's `strtod` after the white space and the sign: an infinity, a value that is no
number, a hexadecimal or a decimal numeral at the head of the input, and what follows
it; `none` when nothing converts. -/
def strtodBody (neg : Bool) (cs : List Char) : Option (LuaNumber × List Char) :=
  match stripWord "infinity".data cs with
  | some r => some (.inf neg, r)
  | none =>
    match stripWord "inf".data cs with
    | some r => some (.inf neg, r)
    | none =>
      match stripWord "nan".data cs with
      | some r => some (.nan, skipNanPayload r)
      | none =>
        let hex : Option (LuaNumber × List Char) :=
          match stripWord "0x".data cs with
          | none => none
          | some r =>
            match scanMantissa takeHex r with
            | ([], [], _) => none
            | (hi, hf, r1) =>
              some (LuaNumber.scaled neg (digitsToNat 16 (hi ++ hf)) 2
                ((optExp 'p' r1).1 - 4 * (hf.length : Int)), (optExp 'p' r1).2)
        match hex with
        | some x => some x
        | none =>
          match scanMantissa takeDigits cs with
          | ([], [], _) => none
          | (di, df, r1) =>
            some (LuaNumber.scaled neg (digitsToNat 10 (di ++ df)) 10
              ((optExp 'e' r1).1 - (df.length : Int)), (optExp 'e' r1).2)

/-- Lua's reading of a string as a number (`luaO_str2d`, on the C string, which ends at
the first NUL): white space, an optional sign, what `strtod` converts, and white space
up to the end; `none` is Lua's `nil`. -/
def str2d (s : String) : Option LuaNumber :=
  let body : Option (LuaNumber × List Char) :=
    match dropSpaces (s.data.takeWhile (fun c => decide (c ≠ Char.ofNat 0))) with
    | '-' :: r => strtodBody true r
    | '+' :: r => strtodBody false r
    | r => strtodBody false r
  match body with
  | none => none
  | some (x, r) => if dropSpaces r = [] then some x else none

/-- Lua's `tonumber` on a string. A decimal integer numeral, which is what `HSET` of a
Go `int` and `HINCRBY` leave in a hash field, is read first; every other string goes
through `str2d`. -/
def tonumber (s : String) : Option LuaNumber :=
  match parseSignedDecimal s.data with
  | some v => some (LuaNumber.ofInt v)
  | none => str2d s

/-- Redis's `string2ll`: the strict reading of an `int64`, which accepts exactly the
canonical numerals (no plus sign, no leading zero, no `-0`, no blank). -/
def string2ll (s : String) : Option Int :=
  match parseSignedDecimal s.data with
  | none => none
  | some v => if FormatInt v = s ∧ inInt64 v = true then some v else none

/-- The integers a Lua number (a double) holds exactly, so that the comparison and the
subtraction of the script are exact on them. -/
def luaExact (v : Int) : Prop := -(2 ^ 53) ≤ v ∧ v ≤ 2 ^ 53

instance (v : Int) : Decidable (luaExact v) := by
  unfold luaExact
  exact inferInstance

/-! ## Go values -/

/-- The Go `error` values this code receives or makes. -/
inductive GoError
  /-- A connection failure of the cache, the queue or the database. -/
  | backend
  /-- Redis: the key holds a value of another type (`WRONGTYPE`). -/
  | wrongType
  /-- Redis: a hash value is not an integer, or the increment would overflow. -/
  | notInteger
  /-- Redis: the Lua script raised an error of its own. -/
  | script
  /-- The value `redis.Nil` of go-redis: the key does not exist. -/
  | redisNil
  /-- The value of `errors.New("库存不足")` in `SkillProduct`. -/
  | stockShort
  /-- The value of `fmt.Errorf("库存不足或商品不存在，id: %d", id)` in `SkillGoodsDao.SkillGoods`. -/
  | noRowUpdated (id : Nat)
  /-- `encoding/json`: the input is not a JSON text. -/
  | jsonSyntax
  /-- `encoding/json`: a JSON value does not fit the Go type it is stored in. -/
  | jsonType
  /-- `encoding/json`: a value that cannot be marshalled. -/
  | jsonMarshal
  /-- A failure of `Ack` or `Nack` on a delivery. -/
  | ackFailed
  deriving DecidableEq, Repr

deriving instance DecidableEq for Except

/-- The struct `model.SkillProduct`; `F` stands for `float64`. -/
structure SkillProduct (F : Type) where
  Id : Nat
  ProductId : Nat
  BossId : Nat
  Title : String
  Price : F
  Num : Int
  CustomId : Nat
  CustomName : String
  deriving DecidableEq, Repr

/-- The library functions on `float64` and the JSON encoder, which the code calls and
the model takes as given. -/
structure Lib (F : Type) where
  /-- What go-redis writes for a `float64` argument: `strconv.AppendFloat(b, v, 'f', -1, 64)`. -/
  formatFloat : F → String
  /-- The value of `strconv.ParseFloat(s, 64)`, whatever its error. -/
  parseFloat : String → F
  /-- The call `json.Marshal(p)` on a `model.SkillProduct`. -/
  marshal : SkillProduct F → Except GoError String

/-- What a service function returns in its `resp interface{}`. -/
inductive Resp (F : Type)
  /-- The nil interface. -/
  | nil
  /-- A `[]string`. -/
  | strings (l : List String)
  /-- A `[]*model.SkillProduct`. -/
  | products (l : List (SkillProduct F))
  deriving DecidableEq, Repr

/-! ## Redis -/

/-- A value stored under a Redis key. -/
inductive RedisValue
  | str (v : String)
  | hash (fields : List (String × String))
  | set (members : List String)
  deriving DecidableEq, Repr

/-- The key space of Redis: at most the first entry of a key counts. -/
abbrev KeySpace := List (String × RedisValue)

/-- The value of a field in a field list (a Redis hash, a Go map with string keys). -/
def fieldLookup {α : Type} (field : String) : List (String × α) → Option α
  | [] => none
  | (f, v) :: rest => if f = field then some v else fieldLookup field rest

/-- A field list with `field` set to `v`. -/
def fieldSet {α : Type} (field : String) (v : α) : List (String × α) → List (String × α)
  | [] => [(field, v)]
  | (f, w) :: rest => if f = field then (f, v) :: rest else (f, w) :: fieldSet field v rest

/-- The value stored under a key, if any. -/
def KeySpace.find (ks : KeySpace) (key : String) : Option RedisValue :=
  match ks with
  | [] => none
  | (k, v) :: rest => if k = key then some v else KeySpace.find rest key

/-- The key space without a key. -/
def KeySpace.del (ks : KeySpace) (key : String) : KeySpace :=
  ks.filter (fun kv => decide (kv.1 ≠ key))

/-- The key space with a key set to a value. -/
def KeySpace.put (ks : KeySpace) (key : String) (v : RedisValue) : KeySpace :=
  match ks with
  | [] => [(key, v)]
  | (k, w) :: rest => if k = key then (k, v) :: rest else (k, w) :: KeySpace.put rest key v

/-- Redis `GET`: the string under the key, `none` when there is no such key. -/
def redisGet (ks : KeySpace) (key : String) : Except GoError (Option String) :=
  match ks.find key with
  | none => .ok none
  | some (.str v) => .ok (some v)
  | some _ => .error .wrongType

/-- Redis `SET key value NX`: sets the key when it does not exist, whatever type a
present key has; the reply says whether it was set. -/
def redisSetNX (ks : KeySpace) (key value : String) : KeySpace × Bool :=
  match ks.find key with
  | none => (ks.put key (.str value), true)
  | some _ => (ks, false)

/-- Redis `DEL` of one key: the number of keys removed. -/
def redisDel (ks : KeySpace) (key : String) : KeySpace × Int :=
  match ks.find key with
  | none => (ks, 0)
  | some _ => (ks.del key, 1)

/-- Redis `SMEMBERS`. -/
def redisSMembers (ks : KeySpace) (key : String) : Except GoError (List String) :=
  match ks.find key with
  | none => .ok []
  | some (.set ms) => .ok ms
  | some _ => .error .wrongType

/-- Redis `SISMEMBER`. -/
def redisSIsMember (ks : KeySpace) (key member : String) : Except GoError Bool :=
  match ks.find key with
  | none => .ok false
  | some (.set ms) => .ok (decide (member ∈ ms))
  | some _ => .error .wrongType

/-- Redis `SADD`: the members not yet in the set are added. -/
def redisSAdd (ks : KeySpace) (key : String) (members : List String) : Except GoError KeySpace :=
  match ks.find key with
  | none => .ok (ks.put key (.set (members.foldl (fun acc m => if m ∈ acc then acc else acc ++ [m]) [])))
  | some (.set ms) =>
    .ok (ks.put key (.set (members.foldl (fun acc m => if m ∈ acc then acc else acc ++ [m]) ms)))
  | some _ => .error .wrongType

/-- Redis `HGET`: the value of a field, `none` when the key or the field is missing. -/
def redisHGet (ks : KeySpace) (key field : String) : Except GoError (Option String) :=
  match ks.find key with
  | none => .ok none
  | some (.hash fs) => .ok (fieldLookup field fs)
  | some _ => .error .wrongType

/-- Redis `HGETALL`: all fields, none when the key is missing. -/
def redisHGetAll (ks : KeySpace) (key : String) : Except GoError (List (String × String)) :=
  match ks.find key with
  | none => .ok []
  | some (.hash fs) => .ok fs
  | some _ => .error .wrongType

/-- Redis `HMSET`: sets the given fields of the hash under the key. -/
def redisHMSet (ks : KeySpace) (key : String) (fields : List (String × String)) :
    Except GoError KeySpace :=
  match ks.find key with
  | none => .ok (ks.put key (.hash (fields.foldl (fun acc fv => fieldSet fv.1 fv.2 acc) [])))
  | some (.hash fs) =>
    .ok (ks.put key (.hash (fields.foldl (fun acc fv => fieldSet fv.1 fv.2 acc) fs)))
  | some _ => .error .wrongType

/-- Redis `HINCRBY`: the field, read strictly as an `int64` (0 when missing), is
increased by `incr`; the reply is the new value. An increment or a sum outside
`int64` and a field that is not an integer are errors. -/
def redisHIncrBy (ks : KeySpace) (key field : String) (incr : Int) :
    Except GoError (KeySpace × Int) :=
  if inInt64 incr = false then .error .notInteger
  else
    match ks.find key with
    | none =>
      .ok (ks.put key (.hash [(field, FormatInt incr)]), incr)
    | some (.hash fs) =>
      match fieldLookup field fs with
      | none => .ok (ks.put key (.hash (fieldSet field (FormatInt incr) fs)), incr)
      | some cur =>
        match string2ll cur with
        | none => .error .notInteger
        | some old =>
          if inInt64 (old + incr) = false then .error .notInteger
          else .ok (ks.put key (.hash (fieldSet field (FormatInt (old + incr)) fs)), old + incr)
    | some _ => .error .wrongType

/-! ## The cache keys -/

/-- Modelled from the spec: the constant `cache.SkillProductSetKey` is not among the
sources; the spec names the set key `skill:product:ids`. -/
def SkillProductSetKey : String := "skill:product:ids"

/-- Modelled from the spec: the format constant `cache.SkillProductKey` is not among the
sources; the spec gives the record key as `skill:product:{productId}`, so
`fmt.Sprintf(cache.SkillProductKey, x)` is the prefix followed by `x` as text. -/
def SkillProductKey (productId : String) : String := "skill:product:" ++ productId

/-! ## `service/skill_goods.go`: writing the cache -/

/-- The field map that `syncPoructInfoToRedis` builds for one product, each value as
go-redis writes it. -/
def productHashFieldsOf {F : Type} (lib : Lib F) (skillProduct : SkillProduct F) :
    List (String × String) :=
  [("stock", FormatInt skillProduct.Num),
   ("price", lib.formatFloat skillProduct.Price),
   ("product_id", FormatUint skillProduct.Id),
   ("title", skillProduct.Title),
   ("boss_id", FormatUint skillProduct.BossId)]

/-- A command queued in the transaction of `syncPoructInfoToRedis`. -/
inductive PipeCmd
  | hmset (key : String) (fields : List (String × String))
  | expire (key : String)
  | sadd (key : String) (members : List String)
  deriving DecidableEq, Repr

/-- The effect of one queued command. -/
def PipeCmd.exec : PipeCmd → KeySpace → Except GoError KeySpace
  | .hmset key fields, ks => redisHMSet ks key fields
  | .expire _, ks => .ok ks
  | .sadd key members, ks => redisSAdd ks key members

/-- The commands of a `MULTI`/`EXEC` block run in order; one that fails leaves the key
space as it was and the others still run. `TxPipelined` returns the first error. -/
def execTx : List PipeCmd → KeySpace → KeySpace × Option GoError
  | [], ks => (ks, none)
  | cmd :: rest, ks =>
    match cmd.exec ks with
    | .ok ks' => execTx rest ks'
    | .error e => ((execTx rest ks).1, some e)

/-- The function `syncPoructInfoToRedis`. With `fault` the transaction does not reach
Redis. -/
def syncPoructInfoToRedis {F : Type} (lib : Lib F) (fault : Bool)
    (skillProductList : List (SkillProduct F)) (ks : KeySpace) : KeySpace × Option GoError :=
  let productHashKeys :=
    skillProductList.map (fun p => SkillProductKey (FormatUint p.ProductId))
  let productHashFields : List (String × List (String × String)) :=
    skillProductList.foldl
      (fun m p => fieldSet (SkillProductKey (FormatUint p.ProductId)) (productHashFieldsOf lib p) m) []
  let productIdStrs := skillProductList.map (fun p => FormatInt (uintToInt p.ProductId))
  if productHashKeys.length > 0 then
    if fault then (ks, some .backend)
    else
      execTx
        (productHashKeys.flatMap
            (fun key => [.hmset key ((fieldLookup key productHashFields).getD []), .expire key])
          ++ [.sadd SkillProductSetKey productIdStrs])
        ks
  else (ks, none)

/-! ## `service/skill_goods.go`: the lock -/

/-- The Lua script of `releaseLock` with `KEYS[1] = key` and `ARGV[1] = arg`. A missing
key makes `redis.call("get", ...)` the Lua value `false`, which equals no string. -/
def releaseLockLua (ks : KeySpace) (key arg : String) : Except GoError (KeySpace × Int) :=
  match redisGet ks key with
  | .error e => .error e
  | .ok reply => if reply = some arg then .ok (redisDel ks key) else .ok (ks, 0)

/-- The function `releaseLock`: the error of `Eval` is logged and nothing is returned. -/
def releaseLock (fault : Bool) (ks : KeySpace) (lockKey lockValue : String) : KeySpace :=
  if fault then ks
  else
    match releaseLockLua ks lockKey lockValue with
    | .error _ => ks
    | .ok (ks', _) => ks'

/-! ## `service/skill_goods.go`: reading the cache -/

/-- The function `productFieldsToSkillProduct`; `none` is the nil pointer. -/
def productFieldsToSkillProduct {F : Type} (lib : Lib F) (productFields : List (String × String)) :
    Option (SkillProduct F) :=
  match fieldLookup "product_id" productFields with
  | none => none
  | some idVal =>
    match fieldLookup "price" productFields with
    | none => none
    | some priceVal =>
      match fieldLookup "boss_id" productFields with
      | none => none
      | some bossVal =>
        match fieldLookup "title" productFields with
        | none => none
        | some titleVal =>
          some { Id := 0, ProductId := (ParseUint idVal).1, BossId := (ParseUint bossVal).1,
                 Title := titleVal, Price := lib.parseFloat priceVal, Num := 0,
                 CustomId := 0, CustomName := "" }

/-- The call `rc.HGetAll(ctx, key).Result()`. -/
def HGetAll (fault : Bool) (ks : KeySpace) (key : String) :
    Except GoError (List (String × String)) :=
  if fault then .error .backend else redisHGetAll ks key

/-- The loop of `ListSkillGoodsByIDs` from the lists gathered so far: a record that
cannot be read or lacks a field is skipped, a record that cannot be marshalled ends
the call with the error. -/
def listSkillGoodsByIDsLoop {F : Type} (lib : Lib F) (fault : String → Bool) (ks : KeySpace) :
    List String → List String → Except GoError (List String)
  | [], skillProductsJsons => .ok skillProductsJsons
  | productIdStr :: rest, skillProductsJsons =>
    match HGetAll (fault (SkillProductKey productIdStr)) ks (SkillProductKey productIdStr) with
    | .error _ => listSkillGoodsByIDsLoop lib fault ks rest skillProductsJsons
    | .ok productFields =>
      match productFieldsToSkillProduct lib productFields with
      | none => listSkillGoodsByIDsLoop lib fault ks rest skillProductsJsons
      | some skillProduct =>
        match lib.marshal skillProduct with
        | .error e => .error e
        | .ok productJson =>
          listSkillGoodsByIDsLoop lib fault ks rest (skillProductsJsons ++ [productJson])

/-- The function `ListSkillGoodsByIDs`; `fault key` says whether the read of `key` fails. -/
def ListSkillGoodsByIDs {F : Type} (lib : Lib F) (fault : String → Bool) (ks : KeySpace)
    (skillProductIdStrList : List String) : Resp F × Option GoError :=
  match listSkillGoodsByIDsLoop lib fault ks skillProductIdStrList [] with
  | .error e => (.nil, some e)
  | .ok skillProductsJsons => (.strings skillProductsJsons, none)

/-- The function `GetSkillGoodsByID`: the product read from the record, `none` (the nil
pointer) when the record lacks a field; the error is that of the read. -/
def GetSkillGoodsByID {F : Type} (lib : Lib F) (fault : Bool) (ks : KeySpace)
    (productIdStr : String) : Option (SkillProduct F) × Option GoError :=
  match HGetAll fault ks (SkillProductKey productIdStr) with
  | .error e => (none, some e)
  | .ok productFields =>
    match productFieldsToSkillProduct lib productFields with
    | some product => (some product, none)
    | none => (none, none)

/-! ## `encoding/json`: reading a message body -/

/-- A JSON value; a number keeps its literal. -/
inductive Json
  | null
  | bool (b : Bool)
  | num (lit : String)
  | str (s : String)
  | arr (items : List Json)
  | obj (members : List (String × Json))
  deriving Repr

/-- The input after its leading JSON white space. -/
def skipWs : List Char → List Char
  | [] => []
  | c :: cs => if c = ' ' ∨ c = '\t' ∨ c = '\n' ∨ c = '\r' then skipWs cs else c :: cs

/-- The optional exponent of a JSON number. -/
def scanExponent (cs : List Char) : Option (List Char × List Char) :=
  match cs with
  | e :: r =>
    if e = 'e' ∨ e = 'E' then
      match r with
      | sgn :: r1 =>
        if sgn = '+' ∨ sgn = '-' then
          match takeDigits r1 with
          | ([], _) => none
          | (ds, r2) => some (e :: sgn :: ds, r2)
        else
          match takeDigits r with
          | ([], _) => none
          | (ds, r2) => some (e :: ds, r2)
      | [] => none
    else some ([], cs)
  | [] => some ([], cs)

/-- The optional fraction of a JSON number, then its optional exponent. -/
def scanFraction (cs : List Char) : Option (List Char × List Char) :=
  match cs with
  | '.' :: r =>
    match takeDigits r with
    | ([], _) => none
    | (ds, r1) => (scanExponent r1).map (fun x => ('.' :: ds ++ x.1, x.2))
  | _ => scanExponent cs

/-- The integer part of a JSON number (no leading zero), then the rest of it. -/
def scanUnsigned (cs : List Char) : Option (List Char × List Char) :=
  match cs with
  | [] => none
  | c :: r =>
    if c = '0' then (scanFraction r).map (fun x => (c :: x.1, x.2))
    else if isDigit c then
      (scanFraction (takeDigits r).2).map (fun x => (c :: (takeDigits r).1 ++ x.1, x.2))
    else none

/-- A JSON number: its literal and what follows it. -/
def scanNumber (cs : List Char) : Option (List Char × List Char) :=
  match cs with
  | '-' :: r => (scanUnsigned r).map (fun x => ('-' :: x.1, x.2))
  | _ => scanUnsigned cs

/-- The character of a `\uXXXX` escape; a surrogate half reads as U+FFFD (the pairing
of two halves is outside the model). -/
def unicodeEscape (h1 h2 h3 h4 : Char) : Option Char :=
  match hexVal h1, hexVal h2, hexVal h3, hexVal h4 with
  | some a, some b, some c, some d =>
    let v := ((a * 16 + b) * 16 + c) * 16 + d
    if 0xD800 ≤ v ∧ v ≤ 0xDFFF then some (Char.ofNat 0xFFFD) else some (Char.ofNat v)
  | _, _, _, _ => none

/-- A JSON string after its opening quote: its content (added to `acc`) and what
follows the closing quote. -/
def scanString : List Char → List Char → Option (List Char × List Char)
  | [], _ => none
  | '"' :: r, acc => some (acc, r)
  | '\\' :: 'u' :: h1 :: h2 :: h3 :: h4 :: r, acc =>
    match unicodeEscape h1 h2 h3 h4 with
    | none => none
    | some c => scanString r (acc ++ [c])
  | '\\' :: e :: r, acc =>
    if e = '"' then scanString r (acc ++ ['"'])
    else if e = '\\' then scanString r (acc ++ ['\\'])
    else if e = '/' then scanString r (acc ++ ['/'])
    else if e = 'b' then scanString r (acc ++ [Char.ofNat 8])
    else if e = 'f' then scanString r (acc ++ [Char.ofNat 12])
    else if e = 'n' then scanString r (acc ++ ['\n'])
    else if e = 'r' then scanString r (acc ++ ['\r'])
    else if e = 't' then scanString r (acc ++ ['\t'])
    else none
  | c :: r, acc => if c.toNat < 32 ∨ c = '\\' then none else scanString r (acc ++ [c])

/-- The elements of a JSON array after the first position, up to the closing bracket;
`pv` reads one value. -/
def parseElems (pv : List Char → Option (Json × List Char)) :
    Nat → List Char → Option (List Json × List Char)
  | 0, _ => none
  | n + 1, cs =>
    match pv cs with
    | none => none
    | some (v, r) =>
      match skipWs r with
      | ',' :: r1 => (parseElems pv n (skipWs r1)).map (fun x => (v :: x.1, x.2))
      | ']' :: r1 => some ([v], r1)
      | _ => none

/-- The members of a JSON object up to the closing brace; `pv` reads one value. -/
def parseMembers (pv : List Char → Option (Json × List Char)) :
    Nat → List Char → Option (List (String × Json) × List Char)
  | 0, _ => none
  | n + 1, cs =>
    match cs with
    | '"' :: r =>
      match scanString r [] with
      | none => none
      | some (k, r1) =>
        match skipWs r1 with
        | ':' :: r2 =>
          match pv (skipWs r2) with
          | none => none
          | some (v, r3) =>
            match skipWs r3 with
            | ',' :: r4 =>
              (parseMembers pv n (skipWs r4)).map (fun x => ((String.mk k, v) :: x.1, x.2))
            | '}' :: r4 => some ([(String.mk k, v)], r4)
            | _ => none
        | _ => none
    | _ => none

/-- One JSON value at the head of the input and what follows it; `fuel` bounds the
nesting. -/
def parseValue : Nat → List Char → Option (Json × List Char)
  | 0, _ => none
  | fuel + 1, cs =>
    match cs with
    | 'n' :: 'u' :: 'l' :: 'l' :: r => some (.null, r)
    | 't' :: 'r' :: 'u' :: 'e' :: r => some (.bool true, r)
    | 'f' :: 'a' :: 'l' :: 's' :: 'e' :: r => some (.bool false, r)
    | '"' :: r => (scanString r []).map (fun x => (.str (String.mk x.1), x.2))
    | '[' :: r =>
      match skipWs r with
      | ']' :: r1 => some (.arr [], r1)
      | r1 => (parseElems (parseValue fuel) (r1.length + 1) r1).map (fun x => (.arr x.1, x.2))
    | '{' :: r =>
      match skipWs r with
      | '}' :: r1 => some (.obj [], r1)
      | r1 => (parseMembers (parseValue fuel) (r1.length + 1) r1).map (fun x => (.obj x.1, x.2))
    | _ => (scanNumber cs).map (fun x => (.num (String.mk x.1), x.2))

/-- A whole JSON text: one value between optional white space. -/
def parseJson (body : String) : Option Json :=
  match parseValue (body.length + 1) (skipWs body.data) with
  | none => none
  | some (v, r) => if skipWs r = [] then some v else none

/-- Modelled from the spec: the struct `types.ProductMQ`, into which the consumer reads
a message body, is not among the sources; it is taken to have the shape of
`model.SkillProductMQMsg`: one field `ProductId uint` with the JSON name `product_id`. -/
structure ProductMQ where
  ProductId : Nat
  deriving DecidableEq, Repr

/-- The upper-case form of an ASCII letter. -/
def asciiUpper (c : Char) : Char :=
  if 97 ≤ c.toNat ∧ c.toNat ≤ 122 then Char.ofNat (c.toNat - 32) else c

/-- The folded form of an object key: `encoding/json` matches a key with a field name
regardless of case. -/
def foldName (s : String) : List Char := s.data.map asciiUpper

/-- The members of a JSON object stored one after the other into a `ProductMQ`; the
flag turns false when a value does not fit the field (the decoder keeps the first
such error and goes on). -/
def decodeMembers : List (String × Json) → ProductMQ × Bool → ProductMQ × Bool
  | [], acc => acc
  | (k, v) :: rest, (msg, ok) =>
    if foldName k = foldName "product_id" then
      match v with
      | .null => decodeMembers rest (msg, ok)
      | .num lit =>
        match ParseUint lit with
        | (n, true) => decodeMembers rest ({ ProductId := n }, ok)
        | (_, false) => decodeMembers rest (msg, false)
      | _ => decodeMembers rest (msg, false)
    else decodeMembers rest (msg, ok)

/-- The call `json.Unmarshal(body, &deductMsg)` on a fresh `ProductMQ`. -/
def Unmarshal (body : String) : Except GoError ProductMQ :=
  match parseJson body with
  | none => .error .jsonSyntax
  | some .null => .ok { ProductId := 0 }
  | some (.obj members) =>
    match decodeMembers members ({ ProductId := 0 }, true) with
    | (msg, true) => .ok msg
    | (_, false) => .error .jsonType
  | some _ => .error .jsonType

/-! ## `repository/db/dao/skill_goods.go` -/

/-- The method `SkillGoodsDao.ListSkillGoods`: `SELECT * FROM skill_product WHERE num > 0`. -/
def SkillGoodsDao.ListSkillGoods {F : Type} (fault : Bool) (table : List (SkillProduct F)) :
    Except GoError (List (SkillProduct F)) :=
  if fault then .error .backend else .ok (table.filter (fun row => decide (row.Num > 0)))

/-- The method `SkillGoodsDao.SkillGoods`:
`UPDATE skill_product SET num = num - 1 WHERE product_id = ? AND num > 0`, an error
when the statement fails and when it changes no row. -/
def SkillGoodsDao.SkillGoods {F : Type} (fault : Bool) (id : Nat) (table : List (SkillProduct F)) :
    List (SkillProduct F) × Option GoError :=
  if fault then (table, some .backend)
  else
    let rowsAffected :=
      (table.filter (fun row => decide (row.ProductId = id ∧ row.Num > 0))).length
    let table' :=
      table.map (fun row =>
        if row.ProductId = id ∧ row.Num > 0 then { row with Num := row.Num - 1 } else row)
    if rowsAffected = 0 then (table', some (.noRowUpdated id)) else (table', none)

/-! ## `repository/rabbitmq/rabbitmq.go` -/

/-- The function `PublishSkillMessage`: the body joins the messages published to the
exchange `skill` with the routing key `skill.product`, unless the channel, a
declaration or the publishing fails. -/
def PublishSkillMessage (fault : Bool) (msg : String) (published : List String) :
    List String × Option GoError :=
  if fault then (published, some .backend) else (published ++ [msg], none)

/-- The function `productMySQLStock`. -/
def productMySQLStock {F : Type} (fault : Bool) (productId : Nat) (table : List (SkillProduct F)) :
    List (SkillProduct F) × Option GoError :=
  SkillGoodsDao.SkillGoods fault productId table

/-- What the consumer tells the broker about a delivery. -/
inductive Disposition
  /-- The call `msg.Ack(false)`. -/
  | ack
  /-- The call `msg.Nack(false, requeue)`. -/
  | nack (requeue : Bool)
  deriving DecidableEq, Repr

/-- A delivery as the consumer meets it: the body, whether the database fails while it
is handled, and whether the `Ack` or `Nack` on it fails. -/
structure Delivery where
  Body : String
  dbFault : Bool
  ackFault : Bool
  deriving DecidableEq, Repr

/-- The body of the loop of `StartDeductStockConsumer` up to the `Ack` or `Nack` it
decides on: the table afterwards and the disposition. -/
def handleDelivery {F : Type} (msg : Delivery) (table : List (SkillProduct F)) :
    List (SkillProduct F) × Disposition :=
  match Unmarshal msg.Body with
  | .error _ => (table, .nack false)
  | .ok deductMsg =>
    match productMySQLStock msg.dbFault deductMsg.ProductId table with
    | (table', some _) => (table', .nack true)
    | (table', none) => (table', .ack)

/-- The loop `for msg := range msgs` of `StartDeductStockConsumer` over the deliveries
the broker hands out: the table afterwards, the dispositions that reached the broker,
and the error the function returns (a failed `Ack` or `Nack` ends the loop). -/
def consumeLoop {F : Type} :
    List Delivery → List (SkillProduct F) → List Disposition →
      List (SkillProduct F) × List Disposition × Option GoError
  | [], table, sent => (table, sent, none)
  | msg :: rest, table, sent =>
    if msg.ackFault then ((handleDelivery msg table).1, sent, some .ackFailed)
    else consumeLoop rest (handleDelivery msg table).1 (sent ++ [(handleDelivery msg table).2])

/-- The function `StartDeductStockConsumer`; `setupFault` is a failure of the channel,
of a declaration or of the first binding, which ends the function before the loop. -/
def StartDeductStockConsumer {F : Type} (setupFault : Bool) (msgs : List Delivery)
    (table : List (SkillProduct F)) : List (SkillProduct F) × List Disposition × Option GoError :=
  if setupFault then (table, [], some .backend) else consumeLoop msgs table []

/-! ## `service/skill_goods.go`: the reservation -/

/-- The Lua script `preDeductStockLua` with `KEYS[1] = key` and `ARGV[1] = arg`: the
key space afterwards and the integer reply. `HGET` of a missing field is the Lua value
`false`, which `tonumber` turns into `nil`; comparing a number with `nil` raises an
error. The comparison and the subtraction are those of doubles; `HINCRBY` adds exactly,
on the `int64` that Redis keeps. -/
def preDeductStockLua (ks : KeySpace) (key arg : String) : Except GoError (KeySpace × Int) :=
  match redisHGet ks key "stock" with
  | .error e => .error e
  | .ok reply =>
    match reply.bind tonumber, tonumber arg with
    | none, _ => .ok (ks, -1)
    | some _, none => .error .script
    | some stock, some deductNum =>
      if stock.lt deductNum then .ok (ks, -1)
      else
        match deductNum.neg.argument with
        | none => .error .notInteger
        | some incr =>
          match redisHIncrBy ks key "stock" incr with
          | .error e => .error e
          | .ok (ks', _) => .ok (ks', (stock.sub deductNum).toLongLong)

/-- The call `rc.Eval(ctx, preDeductStockLua, []string{productKey}, deductNum).Int64()`:
the key space afterwards, the `int64` and the error. With an error the `int64` is 0. -/
def evalPreDeductStock (fault : Bool) (ks : KeySpace) (productKey : String) (deductNum : Int) :
    KeySpace × Int × Option GoError :=
  if fault then (ks, 0, some .backend)
  else
    match preDeductStockLua ks productKey (FormatInt deductNum) with
    | .error e => (ks, 0, some e)
    | .ok (ks', result) => (ks', result, none)

/-- The call `rc.SIsMember(ctx, key, member).Result()`. -/
def SIsMember (fault : Bool) (ks : KeySpace) (key member : String) : Except GoError Bool :=
  if fault then .error .backend else redisSIsMember ks key member

/-- Which backend calls of one `SkillProduct` call fail. -/
structure SkillFaults where
  sIsMember : Bool
  eval : Bool
  publish : Bool
  deriving DecidableEq, Repr

/-- The state a reservation acts on: the cache and the bodies published so far. -/
structure Hot where
  cache : KeySpace
  published : List String
  deriving DecidableEq, Repr

/-- The string `SkillProduct` returns on success. -/
def skillSuccess : String := "秒杀成功"

/-- The method `SkillProductSrv.SkillProduct` as one atomic step. The struct
`types.SkillProductReq` is not among the sources: the request enters as `productId`,
the string `string(req.ProductId)` that the function uses at every place. The result is
the state afterwards, `resp` (nil or a string) and `err`. -/
def SkillProductSrv.SkillProduct (faults : SkillFaults) (productId : String) (st : Hot) :
    Hot × Option String × Option GoError :=
  match SIsMember faults.sIsMember st.cache SkillProductSetKey productId with
  | .error e => (st, none, some e)
  | .ok false => (st, none, none)
  | .ok true =>
    match evalPreDeductStock faults.eval st.cache (SkillProductKey productId) 1 with
    | (cache', result, _) =>
      if result < 0 then ({ st with cache := cache' }, none, some .stockShort)
      else
        match PublishSkillMessage faults.publish productId st.published with
        | (published', some e) => ({ cache := cache', published := published' }, none, some e)
        | (published', none) =>
          ({ cache := cache', published := published' }, some skillSuccess, none)

/-- The states and results of `n` successive `SkillProduct` calls for one product. -/
def runSkillProduct (faults : SkillFaults) (productId : String) :
    Nat → Hot → List (Hot × Option String × Option GoError)
  | 0, _ => []
  | n + 1, st =>
    SkillProductSrv.SkillProduct faults productId st ::
      runSkillProduct faults productId n (SkillProductSrv.SkillProduct faults productId st).1

/-- The state after `n` successive `SkillProduct` calls for one product. -/
def afterSkillProducts (faults : SkillFaults) (productId : String) : Nat → Hot → Hot
  | 0, st => st
  | n + 1, st =>
    afterSkillProducts faults productId n (SkillProductSrv.SkillProduct faults productId st).1

/-- No backend call of `SkillProduct` fails. -/
def noSkillFaults : SkillFaults := { sIsMember := false, eval := false, publish := false }

/-- Whether a result of `SkillProduct` is the success result. -/
def isReserved (r : Hot × Option String × Option GoError) : Bool :=
  decide (r.2 = (some skillSuccess, none))

/-- Whether a result of `SkillProduct` is the rejection for insufficient stock. -/
def isStockShort (r : Hot × Option String × Option GoError) : Bool :=
  decide (r.2 = (none, some GoError.stockShort))

/-! ## `service/skill_goods.go`: the listing and the warm-up -/

/-- The call `rc.SMembers(ctx, key).Result()`; the members come in the order the model
keeps them. -/
def SMembers (fault : Bool) (ks : KeySpace) (key : String) : Except GoError (List String) :=
  if fault then .error .backend else redisSMembers ks key

/-- The call `rc.Get(ctx, key).Result()`: the empty string together with an error when
the key is missing, holds no string, or the call fails. -/
def Get (fault : Bool) (ks : KeySpace) (key : String) : String × Option GoError :=
  if fault then ("", some .backend)
  else
    match redisGet ks key with
    | .ok (some v) => (v, none)
    | .ok none => ("", some .redisNil)
    | .error e => ("", some e)

/-- Which backend calls of one `ListSkillGoods` call fail: `sMembers i` is about the
`i`-th read of the membership set (0 the first read, 1 the double check or the first
retry, 2 and 3 the later retries), `hGetAll` and `get` go by key. -/
structure ListFaults where
  sMembers : Nat → Bool
  setNX : Bool
  hGetAll : String → Bool
  get : String → Bool
  listSkillGoods : Bool
  txPipelined : Bool
  releaseLock : Bool

/-- What surrounds one `ListSkillGoods` call: the token `uuid.NewString()` yields, the
faults, and what the other clients do to the cache: `others 0` between the first read
and `SetNX`, `others 1` before the double check or the first retry (during the first
sleep), `others 2` and `others 3` during the later sleeps. -/
structure ListEnv where
  lockValue : String
  faults : ListFaults
  others : Nat → KeySpace → KeySpace

/-- What one `ListSkillGoods` call leaves and returns; `listReads` counts its calls of
`SkillGoodsDao.ListSkillGoods`. -/
structure ListResult (F : Type) where
  cache : KeySpace
  resp : Resp F
  err : Option GoError
  listReads : Nat
  deriving DecidableEq, Repr

/-- The key of the warm-up lock. -/
def lockKey : String := "lock:skill:product:list"

/-- The retry loop of `ListSkillGoods` for a caller without the lock, from attempt `i`:
after the sleep the membership set is read again, and when it has members the value of
`rc.Get` for each member is returned, the error of `Get` dropped. -/
def retryLoop {F : Type} (env : ListEnv) : Nat → Nat → KeySpace → ListResult F
  | 0, _, ks => { cache := ks, resp := .nil, err := none, listReads := 0 }
  | left + 1, i, ks =>
    match SMembers (env.faults.sMembers (i + 1)) (env.others (i + 1) ks) SkillProductSetKey with
    | .ok (key :: keys) =>
      { cache := env.others (i + 1) ks,
        resp := .strings
          ((key :: keys).map (fun k => (Get (env.faults.get k) (env.others (i + 1) ks) k).1)),
        err := none, listReads := 0 }
    | _ => retryLoop env left (i + 1) (env.others (i + 1) ks)

/-- The branch of `ListSkillGoods` for the caller that holds the lock, before the
deferred `releaseLock`. -/
def warmUpLocked {F : Type} (lib : Lib F) (env : ListEnv) (ks : KeySpace)
    (table : List (SkillProduct F)) : ListResult F :=
  match SMembers (env.faults.sMembers 1) ks SkillProductSetKey with
  | .error e => { cache := ks, resp := .nil, err := some e, listReads := 0 }
  | .ok skillProductIdStrList =>
    if skillProductIdStrList.length ≥ 0 then
      { cache := ks,
        resp := (ListSkillGoodsByIDs lib env.faults.hGetAll ks skillProductIdStrList).1,
        err := (ListSkillGoodsByIDs lib env.faults.hGetAll ks skillProductIdStrList).2,
        listReads := 0 }
    else
      match SkillGoodsDao.ListSkillGoods env.faults.listSkillGoods table with
      | .error errs => { cache := ks, resp := .nil, err := some errs, listReads := 1 }
      | .ok skill =>
        match syncPoructInfoToRedis lib env.faults.txPipelined skill ks with
        | (ks', some e) => { cache := ks', resp := .nil, err := some e, listReads := 1 }
        | (ks', none) => { cache := ks', resp := .products skill, err := none, listReads := 1 }

/-- The method `SkillProductSrv.ListSkillGoods` on a cache and a table. -/
def SkillProductSrv.ListSkillGoods {F : Type} (lib : Lib F) (env : ListEnv) (ks : KeySpace)
    (table : List (GinMall.SkillProduct F)) : ListResult F :=
  match SMembers (env.faults.sMembers 0) ks SkillProductSetKey with
  | .error e => { cache := ks, resp := .nil, err := some e, listReads := 0 }
  | .ok [] =>
    if env.faults.setNX then
      { cache := env.others 0 ks, resp := .nil, err := some .backend, listReads := 0 }
    else
      match redisSetNX (env.others 0 ks) lockKey env.lockValue with
      | (ks1, true) =>
        let r := warmUpLocked lib env (env.others 1 ks1) table
        { r with cache := releaseLock env.faults.releaseLock r.cache lockKey env.lockValue }
      | (ks1, false) => retryLoop env 3 0 ks1
  | .ok (id :: ids) =>
    { cache := ks,
      resp := (ListSkillGoodsByIDs lib env.faults.hGetAll ks (id :: ids)).1,
      err := (ListSkillGoodsByIDs lib env.faults.hGetAll ks (id :: ids)).2,
      listReads := 0 }

/-! ## Sample data -/

/-- A library instance for the samples: prices are whole numbers written in decimal, and
a product is marshalled to its product id and stock. -/
def sampleLib : Lib Nat where
  formatFloat := FormatUint
  parseFloat := fun s => (ParseUint s).1
  marshal := fun p => .ok (FormatUint p.ProductId ++ ":" ++ FormatInt p.Num)

/-- A sample row: primary key 7, product id 1, stock 10. -/
def sampleProduct : SkillProduct Nat :=
  { Id := 7, ProductId := 1, BossId := 2, Title := "t", Price := 200, Num := 10,
    CustomId := 0, CustomName := "" }

/-- A warm cache: product `1` is a member and its record holds the stock 10. -/
def stockTen : Hot :=
  { cache := [(SkillProductSetKey, .set ["1"]), (SkillProductKey "1", .hash [("stock", "10")])],
    published := [] }

/-- A warm cache: product `1` is a member and its record holds the stock 0. -/
def soldOut : Hot :=
  { cache := [(SkillProductSetKey, .set ["1"]), (SkillProductKey "1", .hash [("stock", "0")])],
    published := [] }

/-- A warm cache: product `1` is a member and its record holds the largest stock a Go
`int` can hold, `2^63 - 1`. -/
def stockMax : Hot :=
  { cache := [(SkillProductSetKey, .set ["1"]),
              (SkillProductKey "1", .hash [("stock", "9223372036854775807")])],
    published := [] }

/-- No backend call of `ListSkillGoods` fails. -/
def noListFaults : ListFaults :=
  { sMembers := fun _ => false, setNX := false, hGetAll := fun _ => false, get := fun _ => false,
    listSkillGoods := false, txPipelined := false, releaseLock := false }

/-- A caller alone on the cache, with the token `tok`. -/
def aloneEnv : ListEnv := { lockValue := "tok", faults := noListFaults, others := fun _ ks => ks }

/-- A well-formed message for product 1: the JSON object with the member `product_id`. -/
def sampleBody : String := "\x7b\"product_id\":1\x7d"

/-- A cold cache on which another client holds the warm-up lock. -/
def lockedCold : KeySpace := [(lockKey, .str "other")]

/-- The cache after the lock holder has written the sample product to it. -/
def warmedCache : KeySpace := (syncPoructInfoToRedis sampleLib false [sampleProduct] lockedCold).1

/-- A caller that loses the race for the lock: the lock holder writes the sample product
to the cache during the caller's first sleep. -/
def loserEnv : ListEnv :=
  { lockValue := "tok", faults := noListFaults,
    others := fun i ks =>
      if i = 1 then (syncPoructInfoToRedis sampleLib false [sampleProduct] ks).1 else ks }

/-! ## Decimal numerals: reading back what was written -/

theorem isDigit_digitChar (d : Nat) (h : d < 10) : isDigit (digitChar d) = true := by
  interval_cases d <;> decide

theorem digitVal_digitChar (d : Nat) (h : d < 10) : digitVal (digitChar d) = d := by
  interval_cases d <;> decide

theorem digitsValue_append (l : List Char) (c : Char) (acc : Nat) :
    digitsValue acc (l ++ [c]) =
      (digitsValue acc l).bind (fun v => if isDigit c then some (v * 10 + digitVal c) else none) := by
  induction l generalizing acc with
  | nil => simp [digitsValue]
  | cons a l ih =>
    simp only [List.cons_append, digitsValue]
    split
    · exact ih _
    · rfl

theorem digitsValue_natDigits (fuel n : Nat) (h : n < fuel) :
    digitsValue 0 (natDigits fuel n) = some n := by
  induction fuel generalizing n with
  | zero => omega
  | succ fuel ih =>
    unfold natDigits
    split
    · rename_i hn
      simp [digitsValue, isDigit_digitChar n hn, digitVal_digitChar n hn]
    · rw [digitsValue_append, ih (n / 10) (by omega)]
      have hm : n % 10 < 10 := Nat.mod_lt _ (by decide)
      simp only [Option.some_bind, isDigit_digitChar _ hm, digitVal_digitChar _ hm, if_true]
      congr 1
      omega

theorem natDigits_all_digits (fuel n : Nat) : ∀ c ∈ natDigits fuel n, isDigit c = true := by
  induction fuel generalizing n with
  | zero => intro c hc; simp [natDigits] at hc
  | succ fuel ih =>
    intro c hc
    unfold natDigits at hc
    split at hc
    · rename_i hn
      simp only [List.mem_singleton] at hc
      subst hc
      exact isDigit_digitChar n hn
    · rcases List.mem_append.mp hc with h1 | h1
      · exact ih _ c h1
      · simp only [List.mem_singleton] at h1
        subst h1
        exact isDigit_digitChar _ (Nat.mod_lt _ (by decide))

theorem natDigits_ne_nil (fuel n : Nat) : natDigits (fuel + 1) n ≠ [] := by
  unfold natDigits
  split <;> simp

theorem parseDecimal_natDigits (n : Nat) : parseDecimal (natDigits (n + 1) n) = some n := by
  have h := digitsValue_natDigits (n + 1) n (by omega)
  cases hl : natDigits (n + 1) n with
  | nil => exact absurd hl (natDigits_ne_nil n n)
  | cons c cs => rw [hl] at h; simpa [parseDecimal] using h

theorem parseSignedDecimal_FormatInt (v : Int) : parseSignedDecimal (FormatInt v).data = some v := by
  unfold FormatInt
  split
  · rename_i hneg
    simp only [parseSignedDecimal, if_true, parseDecimal_natDigits, Option.map_some']
    have : ((v.natAbs : Nat) : Int) = -v := by omega
    rw [this, neg_neg]
  · rename_i hpos
    have hd := natDigits_all_digits (v.natAbs + 1) v.natAbs
    have hp := parseDecimal_natDigits v.natAbs
    cases hl : natDigits (v.natAbs + 1) v.natAbs with
    | nil => exact absurd hl (natDigits_ne_nil _ _)
    | cons c cs =>
      rw [hl] at hd hp
      have hc : c ≠ '-' := by
        intro hc
        have := hd c (List.mem_cons_self _ _)
        rw [hc] at this
        exact absurd this (by decide)
      simp only [parseSignedDecimal, hc, if_false, hp, Option.map_some']
      have : ((v.natAbs : Nat) : Int) = v := by omega
      rw [this]

theorem tonumber_FormatInt (v : Int) : tonumber (FormatInt v) = some (LuaNumber.ofInt v) := by
  simp [tonumber, parseSignedDecimal_FormatInt]

/-! ## Doubles with an integer value -/

theorem bitLength_spec (fuel n : Nat) (hn : n ≠ 0) (hf : n < fuel) :
    ∃ b, bitLength fuel n = b + 1 ∧ 2 ^ b ≤ n ∧ n < 2 ^ (b + 1) := by
  induction fuel generalizing n with
  | zero => omega
  | succ fuel ih =>
    by_cases h2 : n / 2 = 0
    · refine ⟨0, ?_, ?_, ?_⟩
      · cases fuel <;> simp [bitLength, hn, h2]
      · simp; omega
      · simp; omega
    · obtain ⟨b, hb, hlo, hhi⟩ := ih (n / 2) h2 (by omega)
      refine ⟨b + 1, ?_, ?_, ?_⟩
      · simp [bitLength, hn, hb]
      · rw [pow_succ]; omega
      · rw [pow_succ] at hhi ⊢; omega

theorem roundNat_exact (n : Nat) (h : n ≤ 2 ^ 53) : roundNat n = n := by
  unfold roundNat
  rw [if_pos h]

/-- Below `2^63 - 512` the nearest double stays below `2^63`, and it is positive for a
positive number. -/
theorem roundNat_bounds (n : Nat) (h1 : 1 ≤ n) (h2 : n + 513 ≤ 2 ^ 63) :
    1 ≤ roundNat n ∧ roundNat n + 1024 ≤ 2 ^ 63 := by
  by_cases hsmall : n ≤ 2 ^ 53
  · rw [roundNat_exact n hsmall]
    norm_num at hsmall ⊢
    omega
  · obtain ⟨b, hb, hlo, hhi⟩ := bitLength_spec (n + 1) n (by omega) (by omega)
    have hb1 : 53 ≤ b := by
      by_contra hc
      have : 2 ^ (b + 1) ≤ 2 ^ 53 := Nat.pow_le_pow_right (by decide) (by omega)
      omega
    have hb2 : b ≤ 62 := by
      by_contra hc
      have : 2 ^ 63 ≤ 2 ^ b := Nat.pow_le_pow_right (by decide) (by omega)
      omega
    unfold roundNat
    rw [if_neg hsmall, hb]
    interval_cases b <;> norm_num at hlo hhi h2 ⊢ <;> split_ifs <;> omega

theorem toDouble_exact (v : Int) (h : luaExact v) : toDouble v = v := by
  obtain ⟨h1, h2⟩ := h
  have hn : v.natAbs ≤ 2 ^ 53 := by
    norm_num at h1 h2 ⊢
    omega
  unfold toDouble
  rw [roundNat_exact _ hn]
  split <;> omega

theorem toDouble_bounds (v : Int) (h1 : 1 ≤ v) (h2 : v + 513 ≤ 2 ^ 63) :
    1 ≤ toDouble v ∧ toDouble v + 1024 ≤ 2 ^ 63 := by
  have hb := roundNat_bounds v.natAbs (by omega) (by norm_num at h2 ⊢; omega)
  unfold toDouble
  rw [if_neg (by omega)]
  norm_num at hb ⊢
  omega

theorem ofInt_exact (v : Int) (h : luaExact v) : LuaNumber.ofInt v = .int v := by
  have hv := toDouble_exact v h
  obtain ⟨h1, h2⟩ := h
  have hn : v.natAbs ≤ 2 ^ 53 := by
    norm_num at h1 h2 ⊢
    omega
  have hlt : roundNat v.natAbs < doubleLimit := by
    rw [roundNat_exact _ hn]
    exact lt_of_le_of_lt hn (by decide)
  simp [LuaNumber.ofInt, hlt, hv]

theorem ofInt_of_bounds (v : Int) (h0 : 0 ≤ v) (h : toDouble v + 1 ≤ 2 ^ 63) :
    LuaNumber.ofInt v = .int (toDouble v) := by
  have hlt : roundNat v.natAbs < doubleLimit := by
    have h63 : roundNat v.natAbs < 2 ^ 63 := by
      unfold toDouble at h
      rw [if_neg (by omega)] at h
      norm_num at h ⊢
      omega
    exact lt_trans h63 (by decide)
  simp [LuaNumber.ofInt, hlt]

theorem doubleLimit_eq : doubleLimit = 2 ^ 1024 := by
  unfold doubleLimit
  rw [← pow_add, ← pow_add, ← pow_add]

/-- The reading of numerals that are no decimal integers: a fraction, blanks and a plus
sign, an exponent, a hexadecimal numeral, an infinity; and strings that are no
numerals. -/
theorem tonumber_samples :
    tonumber "5.5" = some (.frac false 6192449487634432 50) ∧
    tonumber " +5 " = some (.int 5) ∧
    tonumber "1e2" = some (.int 100) ∧
    tonumber "0x10" = some (.int 16) ∧
    tonumber "-inf" = some (.inf true) ∧
    tonumber "9007199254740993" = some (.int 9007199254740992) ∧
    tonumber "9223372036854775807" = some (.int 9223372036854775808) ∧
    tonumber "" = none ∧ tonumber "abc" = none ∧ tonumber "1e" = none := by
  refine ⟨by decide, by decide, by decide, by decide, by decide, by decide, by decide,
    by decide, by decide, by decide⟩

theorem toDouble_one : toDouble 1 = 1 := by decide

theorem toDouble_zero : toDouble 0 = 0 := by decide

theorem luaToLongLong_of_bounds (d : Int) (h1 : -(2 ^ 63) ≤ d) (h2 : d + 1 ≤ 2 ^ 63) :
    luaToLongLong d = d := by
  have : inInt64 d = true := by
    simp only [inInt64, minInt64, maxInt64, Bool.and_eq_true, decide_eq_true_eq]
    norm_num at h1 h2 ⊢
    omega
  simp [luaToLongLong, this]

theorem string2ll_FormatInt (v : Int) (h : inInt64 v = true) : string2ll (FormatInt v) = some v := by
  simp [string2ll, parseSignedDecimal_FormatInt, h]

/-! ## The key space: reading after writing -/

theorem find_put_same (ks : KeySpace) (key : String) (v : RedisValue) :
    (ks.put key v).find key = some v := by
  induction ks with
  | nil => simp [KeySpace.put, KeySpace.find]
  | cons kv rest ih =>
    obtain ⟨k, w⟩ := kv
    by_cases h : k = key
    · simp [KeySpace.put, KeySpace.find, h]
    · simp [KeySpace.put, KeySpace.find, h, ih]

theorem find_put_other (ks : KeySpace) (key key' : String) (v : RedisValue) (hne : key' ≠ key) :
    (ks.put key v).find key' = ks.find key' := by
  induction ks with
  | nil =>
    simp [KeySpace.put, KeySpace.find, Ne.symm hne]
  | cons kv rest ih =>
    obtain ⟨k, w⟩ := kv
    by_cases h : k = key
    · subst h
      simp [KeySpace.put, KeySpace.find, Ne.symm hne]
    · by_cases h' : k = key'
      · subst h'
        simp [KeySpace.put, KeySpace.find, h]
      · simp [KeySpace.put, KeySpace.find, h, h', ih]

theorem find_del_same (ks : KeySpace) (key : String) : (ks.del key).find key = none := by
  induction ks with
  | nil => simp [KeySpace.del, KeySpace.find]
  | cons kv rest ih =>
    obtain ⟨k, w⟩ := kv
    by_cases h : k = key
    · simpa [KeySpace.del, List.filter, h] using ih
    · simpa [KeySpace.del, List.filter, h, KeySpace.find] using ih

theorem find_del_other (ks : KeySpace) (key key' : String) (hne : key' ≠ key) :
    (ks.del key).find key' = ks.find key' := by
  induction ks with
  | nil => simp [KeySpace.del, KeySpace.find]
  | cons kv rest ih =>
    obtain ⟨k, w⟩ := kv
    by_cases h : k = key
    · subst h
      simpa [KeySpace.del, List.filter, KeySpace.find, Ne.symm hne] using ih
    · by_cases h' : k = key'
      · subst h'
        simp [KeySpace.del, List.filter, h, KeySpace.find]
      · simpa [KeySpace.del, List.filter, h, KeySpace.find, h'] using ih

theorem fieldLookup_fieldSet_same {α : Type} (field : String) (v : α) (fs : List (String × α)) :
    fieldLookup field (fieldSet field v fs) = some v := by
  induction fs with
  | nil => simp [fieldSet, fieldLookup]
  | cons fv rest ih =>
    obtain ⟨f, w⟩ := fv
    by_cases h : f = field
    · simp [fieldSet, fieldLookup, h]
    · simp [fieldSet, fieldLookup, h, ih]

theorem fieldLookup_fieldSet_other {α : Type} (field field' : String) (v : α)
    (fs : List (String × α)) (hne : field' ≠ field) :
    fieldLookup field' (fieldSet field v fs) = fieldLookup field' fs := by
  induction fs with
  | nil => simp [fieldSet, fieldLookup, Ne.symm hne]
  | cons fv rest ih =>
    obtain ⟨f, w⟩ := fv
    by_cases h : f = field
    · subst h
      simp [fieldSet, fieldLookup, Ne.symm hne]
    · by_cases h' : f = field'
      · subst h'
        simp [fieldSet, fieldLookup, h]
      · simp [fieldSet, fieldLookup, h, h', ih]

theorem inInt64_of_bounds (v : Int) (h1 : -(2 ^ 54) ≤ v) (h2 : v ≤ 2 ^ 54) : inInt64 v = true := by
  simp only [inInt64, minInt64, maxInt64, Bool.and_eq_true, decide_eq_true_eq]
  norm_num at h1 h2 ⊢
  omega

theorem inInt64_of_bounds' (v : Int) (h1 : 0 ≤ v) (h2 : v + 1 ≤ 2 ^ 63) : inInt64 v = true := by
  simp only [inInt64, minInt64, maxInt64, Bool.and_eq_true, decide_eq_true_eq]
  norm_num at h2 ⊢
  omega

theorem redisHGet_some (ks : KeySpace) (key field v : String)
    (h : redisHGet ks key field = .ok (some v)) :
    ∃ fs, ks.find key = some (.hash fs) ∧ fieldLookup field fs = some v := by
  unfold redisHGet at h
  split at h
  · simp at h
  · rename_i fs hf
    refine ⟨fs, hf, ?_⟩
    simpa using h
  · simp at h

/-- The write of the script: `HINCRBY key stock incr` on a record whose stock is `s`. -/
theorem redisHIncrBy_stock (ks : KeySpace) (key : String) (fs : List (String × String))
    (s incr : Int) (hs : inInt64 s = true) (hi : inInt64 incr = true)
    (hsum : inInt64 (s + incr) = true)
    (hfind : ks.find key = some (.hash fs))
    (hstock : fieldLookup "stock" fs = some (FormatInt s)) :
    redisHIncrBy ks key "stock" incr =
      .ok (ks.put key (.hash (fieldSet "stock" (FormatInt (s + incr)) fs)), s + incr) := by
  simp [redisHIncrBy, hi, hfind, hstock, string2ll_FormatInt s hs, hsum]

/-- The script on a record whose stock, the double `ds`, is not below the quantity, the
double `dq`: `HINCRBY` takes the quantity from the stock and the reply is the
difference of the doubles, the double `dr`, converted to an integer. -/
theorem preDeductStockLua_run (ks : KeySpace) (key : String) (s q ds dq dr : Int)
    (hget : redisHGet ks key "stock" = .ok (some (FormatInt s)))
    (hts : LuaNumber.ofInt s = .int ds) (htq : LuaNumber.ofInt q = .int dq)
    (hsub : LuaNumber.ofInt (ds - dq) = .int dr)
    (hnlt : ¬ ds < dq) (harg : (-dq).natAbs < 10 ^ 17)
    (hs : inInt64 s = true) (hsum : inInt64 (s + -dq) = true) :
    ∃ fs, ks.find key = some (.hash fs) ∧
      preDeductStockLua ks key (FormatInt q) =
        .ok (ks.put key (.hash (fieldSet "stock" (FormatInt (s + -dq)) fs)),
          luaToLongLong dr) := by
  obtain ⟨fs, hfind, hstock⟩ := redisHGet_some ks key "stock" _ hget
  refine ⟨fs, hfind, ?_⟩
  have hi : inInt64 (-dq) = true := by
    simp only [inInt64, minInt64, maxInt64, Bool.and_eq_true, decide_eq_true_eq]
    norm_num at harg ⊢
    omega
  have hlua : luaArgument (-dq) = some (-dq) := by
    simp only [luaArgument, harg, if_true]
  have hlt : (LuaNumber.int ds).lt (.int dq) = false := by
    simp [LuaNumber.lt, LuaNumber.num, LuaNumber.den, hnlt]
  simp only [preDeductStockLua, hget, Option.some_bind, tonumber_FormatInt, hts, htq, hlt,
    LuaNumber.neg, LuaNumber.argument, hlua, LuaNumber.sub, hsub, LuaNumber.toLongLong,
    redisHIncrBy_stock ks key fs s _ hs hi hsum hfind hstock]
  simp

/-- The script on a record whose stock `s` covers the quantity `q`, on integers that
doubles hold exactly. -/
theorem preDeductStockLua_enough (ks : KeySpace) (key : String) (s q : Int)
    (hs : luaExact s) (hq : luaExact q) (hd : luaExact (s - q))
    (hget : redisHGet ks key "stock" = .ok (some (FormatInt s))) (hle : q ≤ s) :
    ∃ fs, ks.find key = some (.hash fs) ∧
      preDeductStockLua ks key (FormatInt q) =
        .ok (ks.put key (.hash (fieldSet "stock" (FormatInt (s - q)) fs)), s - q) := by
  have es := ofInt_exact s hs
  have eq := ofInt_exact q hq
  have ed := ofInt_exact (s - q) hd
  obtain ⟨hs1, hs2⟩ := hs
  obtain ⟨hq1, hq2⟩ := hq
  obtain ⟨hd1, hd2⟩ := hd
  norm_num at hs1 hs2 hq1 hq2 hd1 hd2
  obtain ⟨fs, hfind, hrun⟩ := preDeductStockLua_run ks key s q s q (s - q) hget es eq ed
    (by omega) (by norm_num; omega)
    (inInt64_of_bounds _ (by norm_num; omega) (by norm_num; omega))
    (inInt64_of_bounds _ (by norm_num; omega) (by norm_num; omega))
  refine ⟨fs, hfind, ?_⟩
  rw [hrun, luaToLongLong_of_bounds _ (by norm_num; omega) (by norm_num; omega)]
  have : s + -q = s - q := by ring
  rw [this]

/-- The script on a record whose stock `s` is below the quantity `q`, on integers that
doubles hold exactly. -/
theorem preDeductStockLua_short (ks : KeySpace) (key : String) (s q : Int)
    (hs : luaExact s) (hq : luaExact q)
    (hget : redisHGet ks key "stock" = .ok (some (FormatInt s))) (hlt : s < q) :
    preDeductStockLua ks key (FormatInt q) = .ok (ks, -1) := by
  have hl : (LuaNumber.int s).lt (.int q) = true := by
    simp [LuaNumber.lt, LuaNumber.num, LuaNumber.den, hlt]
  simp [preDeductStockLua, hget, tonumber_FormatInt, ofInt_exact s hs, ofInt_exact q hq, hl]

/-- The script on a record without a stock field. -/
theorem preDeductStockLua_missing (ks : KeySpace) (key arg : String)
    (hget : redisHGet ks key "stock" = .ok none) :
    preDeductStockLua ks key arg = .ok (ks, -1) := by
  simp [preDeductStockLua, hget]

theorem redisHGet_put_hash (ks : KeySpace) (key field : String) (fs : List (String × String)) :
    redisHGet (ks.put key (.hash fs)) key field = .ok (fieldLookup field fs) := by
  simp [redisHGet, find_put_same]

theorem redisSIsMember_true (ks : KeySpace) (key member : String)
    (h : redisSIsMember ks key member = .ok true) : ∃ ms, ks.find key = some (.set ms) := by
  unfold redisSIsMember at h
  split at h
  · simp at h
  · rename_i ms hf
    exact ⟨ms, hf⟩
  · simp at h

theorem redisSIsMember_put_other (ks : KeySpace) (key key' member : String) (v : RedisValue)
    (hne : key ≠ key') :
    redisSIsMember (ks.put key' v) key member = redisSIsMember ks key member := by
  simp [redisSIsMember, find_put_other ks key' key v hne]

/-- One reservation of a member product whose record holds a positive stock `s`
succeeds: the stock becomes `s - 1` and the product id is published. -/
theorem SkillProduct_reserved (productId : String) (st : Hot) (s : Int)
    (hs : s + 513 ≤ 2 ^ 63) (hpos : 1 ≤ s)
    (hmem : redisSIsMember st.cache SkillProductSetKey productId = .ok true)
    (hget : redisHGet st.cache (SkillProductKey productId) "stock" = .ok (some (FormatInt s))) :
    ∃ st', SkillProductSrv.SkillProduct noSkillFaults productId st = (st', some skillSuccess, none) ∧
      st'.published = st.published ++ [productId] ∧
      redisSIsMember st'.cache SkillProductSetKey productId = .ok true ∧
      redisHGet st'.cache (SkillProductKey productId) "stock" = .ok (some (FormatInt (s - 1))) := by
  obtain ⟨hd1, hd2⟩ := toDouble_bounds s hpos hs
  norm_num at hs hd2
  have hreply : 0 ≤ toDouble (toDouble s - 1) ∧ toDouble (toDouble s - 1) + 1 ≤ 2 ^ 63 := by
    by_cases h0 : toDouble s - 1 = 0
    · rw [h0, toDouble_zero]
      norm_num
    · have := toDouble_bounds (toDouble s - 1) (by omega) (by norm_num; omega)
      norm_num at this ⊢
      omega
  obtain ⟨fs, hfind, hrun⟩ :=
    preDeductStockLua_run st.cache (SkillProductKey productId) s 1 (toDouble s) 1
      (toDouble (toDouble s - 1)) hget
      (ofInt_of_bounds s (by omega) (by norm_num; omega))
      (ofInt_exact 1 (by decide))
      (ofInt_of_bounds _ (by omega) hreply.2)
      (by omega) (by decide)
      (inInt64_of_bounds' s (by omega) (by norm_num; omega))
      (inInt64_of_bounds' _ (by omega) (by norm_num; omega))
  have hminus : s + -1 = s - 1 := by ring
  rw [hminus] at hrun
  obtain ⟨ms, hset⟩ := redisSIsMember_true _ _ _ hmem
  have hne : SkillProductSetKey ≠ SkillProductKey productId := by
    intro heq
    rw [heq, hfind] at hset
    cases hset
  have hres : ¬ (luaToLongLong (toDouble (toDouble s - 1)) < 0) := by
    rw [luaToLongLong_of_bounds _ (by have := hreply.1; omega) hreply.2]
    exact not_lt.mpr hreply.1
  refine ⟨{ cache := st.cache.put (SkillProductKey productId)
              (.hash (fieldSet "stock" (FormatInt (s - 1)) fs)),
            published := st.published ++ [productId] }, ?_, rfl, ?_, ?_⟩
  · simp [SkillProductSrv.SkillProduct, SIsMember, noSkillFaults, hmem, evalPreDeductStock, hrun,
      hres, PublishSkillMessage]
  · simpa [redisSIsMember_put_other _ _ _ _ _ hne] using hmem
  · simp [redisHGet_put_hash, fieldLookup_fieldSet_same]

/-- One reservation of a member product whose record holds no stock is rejected and
changes nothing. -/
theorem SkillProduct_rejected (productId : String) (st : Hot) (s : Int) (hs : s ≤ 0)
    (he : luaExact s)
    (hmem : redisSIsMember st.cache SkillProductSetKey productId = .ok true)
    (hget : redisHGet st.cache (SkillProductKey productId) "stock" = .ok (some (FormatInt s))) :
    SkillProductSrv.SkillProduct noSkillFaults productId st = (st, none, some .stockShort) := by
  have hrun := preDeductStockLua_short st.cache (SkillProductKey productId) s 1 he (by decide)
    hget (by omega)
  simp [SkillProductSrv.SkillProduct, SIsMember, noSkillFaults, hmem, evalPreDeductStock, hrun]

/-- The run of `n` reservations from stock `S`, part by part. -/
theorem runSkillProduct_from_stock (productId : String) (n S : Nat) (st : Hot)
    (hS : (S : Int) + 512 < 2 ^ 63)
    (hmem : redisSIsMember st.cache SkillProductSetKey productId = .ok true)
    (hget : redisHGet st.cache (SkillProductKey productId) "stock" =
      .ok (some (FormatInt (S : Int)))) :
    (runSkillProduct noSkillFaults productId n st).countP isReserved = min n S ∧
    (runSkillProduct noSkillFaults productId n st).countP isStockShort = n - min n S ∧
    redisHGet (afterSkillProducts noSkillFaults productId n st).cache (SkillProductKey productId)
        "stock" = .ok (some (FormatInt ((S - min n S : Nat) : Int))) ∧
    ∀ r ∈ runSkillProduct noSkillFaults productId n st, ∃ t : Nat,
      redisHGet r.1.cache (SkillProductKey productId) "stock" = .ok (some (FormatInt (t : Int))) := by
  induction n generalizing S st with
  | zero => simp [runSkillProduct, afterSkillProducts, hget]
  | succ n ih =>
    cases S with
    | zero =>
      have hstep := SkillProduct_rejected productId st 0 (le_refl _) (by decide) hmem
        (by simpa using hget)
      obtain ⟨i1, i2, i3, i4⟩ := ih 0 st hS hmem hget
      simp only [runSkillProduct, afterSkillProducts, hstep, List.countP_cons, i1, i2]
      refine ⟨by simp [isReserved], by simp [isStockShort], by simpa using i3, ?_⟩
      intro r hr
      rcases List.mem_cons.mp hr with h | h
      · subst h
        exact ⟨0, by simpa using hget⟩
      · exact i4 r h
    | succ k =>
      obtain ⟨st', hstep, _, hmem', hget'⟩ :=
        SkillProduct_reserved productId st ((k + 1 : Nat) : Int) (by omega) (by push_cast; omega)
          hmem hget
      have hget'' : redisHGet st'.cache (SkillProductKey productId) "stock" =
          .ok (some (FormatInt (k : Int))) := by
        simpa using hget'
      obtain ⟨i1, i2, i3, i4⟩ := ih k st' (by push_cast at hS ⊢; omega) hmem' hget''
      simp only [runSkillProduct, afterSkillProducts, hstep, List.countP_cons, i1, i2]
      refine ⟨?_, ?_, ?_, ?_⟩
      · simp [isReserved, Nat.succ_min_succ]
      · simp [isStockShort, skillSuccess, Nat.succ_min_succ]
      · rw [i3, Nat.succ_min_succ]
        simp
      · intro r hr
        rcases List.mem_cons.mp hr with h | h
        · subst h
          exact ⟨k, hget''⟩
        · exact i4 r h

/-- The conditional decrement changes no row and reports it exactly when no row of the
product has stock left. -/
theorem skillGoods_rejects_iff {F : Type} (id : Nat) (table : List (SkillProduct F)) :
    (SkillGoodsDao.SkillGoods false id table).2 = some (.noRowUpdated id) ↔
      ∀ row ∈ table, row.ProductId = id → row.Num ≤ 0 := by
  have hlen : (table.filter (fun row => decide (row.ProductId = id ∧ row.Num > 0))).length = 0 ↔
      ∀ row ∈ table, row.ProductId = id → row.Num ≤ 0 := by
    rw [List.length_eq_zero, List.filter_eq_nil_iff]
    constructor
    · intro h row hrow hid
      have := h row hrow
      simp only [decide_eq_true_eq, not_and, not_lt] at this
      exact this hid
    · intro h row hrow
      simp only [decide_eq_true_eq, not_and, not_lt]
      exact h row hrow
  unfold SkillGoodsDao.SkillGoods
  simp only [Bool.false_eq_true, if_false]
  split
  · rename_i h0
    simpa using hlen.mp h0
  · rename_i h0
    constructor
    · intro h
      simp at h
    · intro h
      exact absurd (hlen.mpr h) h0

/-- A rejected conditional decrement leaves the table as it is. -/
theorem skillGoods_rejected_table {F : Type} (id : Nat) (table : List (SkillProduct F))
    (h : ∀ row ∈ table, row.ProductId = id → row.Num ≤ 0) :
    (SkillGoodsDao.SkillGoods false id table).1 = table := by
  have hmap : table.map (fun row =>
      if row.ProductId = id ∧ row.Num > 0 then { row with Num := row.Num - 1 } else row) = table := by
    conv_rhs => rw [← List.map_id table]
    apply List.map_congr_left
    intro row hrow
    have hno : ¬ (row.ProductId = id ∧ row.Num > 0) := by
      intro hc
      have := h row hrow hc.1
      omega
    simp [hno]
  unfold SkillGoodsDao.SkillGoods
  simp only [Bool.false_eq_true, if_false]
  split <;> exact hmap

/-- The table after one conditional decrement, row by row. -/
theorem skillGoods_table {F : Type} (id : Nat) (table : List (SkillProduct F)) :
    (SkillGoodsDao.SkillGoods false id table).1 =
      table.map (fun row =>
        if row.ProductId = id ∧ row.Num > 0 then { row with Num := row.Num - 1 } else row) := by
  unfold SkillGoodsDao.SkillGoods
  simp only [Bool.false_eq_true, if_false]
  split <;> rfl

/-- The reader of cache records never sets the stock and the primary key. -/
theorem productFieldsToSkillProduct_num {F : Type} (lib : Lib F)
    (productFields : List (String × String)) (p : SkillProduct F)
    (h : productFieldsToSkillProduct lib productFields = some p) : p.Num = 0 ∧ p.Id = 0 := by
  unfold productFieldsToSkillProduct at h
  split at h
  · cases h
  · split at h
    · cases h
    · split at h
      · cases h
      · split at h
        · cases h
        · cases h
          exact ⟨rfl, rfl⟩

theorem retryLoop_listReads {F : Type} (env : ListEnv) (left i : Nat) (ks : KeySpace) :
    (retryLoop env left i ks : ListResult F).listReads = 0 := by
  induction left generalizing i ks with
  | zero => rfl
  | succ left ih =>
    unfold retryLoop
    split
    · rfl
    · exact ih _ _

/-- The branch of the lock holder never reaches the read of the durable store: the test
`len(skillProductIdStrList) >= 0` before it always holds. -/
theorem warmUpLocked_listReads {F : Type} (lib : Lib F) (env : ListEnv) (ks : KeySpace)
    (table : List (SkillProduct F)) : (warmUpLocked lib env ks table).listReads = 0 := by
  unfold warmUpLocked
  split
  · rfl
  · simp

/-- No call of `ListSkillGoods` reads the durable store. -/
theorem listSkillGoods_listReads {F : Type} (lib : Lib F) (env : ListEnv) (ks : KeySpace)
    (table : List (SkillProduct F)) :
    (SkillProductSrv.ListSkillGoods lib env ks table).listReads = 0 := by
  unfold SkillProductSrv.ListSkillGoods
  split
  · rfl
  · split
    · rfl
    · split
      · exact warmUpLocked_listReads lib env _ table
      · exact retryLoop_listReads env _ _ _
  · rfl

/-- A JSON text that starts with a digit or a minus sign reads as a number, if it reads
at all. -/
theorem parseValue_numeral_head (fuel : Nat) (c : Char) (cs : List Char)
    (hc : isDigit c = true ∨ c = '-') (v : Json) (r : List Char)
    (h : parseValue (fuel + 1) (c :: cs) = some (v, r)) : ∃ lit, v = .num lit := by
  have hn : c ≠ 'n' := by rintro rfl; rcases hc with h | h <;> revert h <;> decide
  have ht : c ≠ 't' := by rintro rfl; rcases hc with h | h <;> revert h <;> decide
  have hf : c ≠ 'f' := by rintro rfl; rcases hc with h | h <;> revert h <;> decide
  have hq : c ≠ '"' := by rintro rfl; rcases hc with h | h <;> revert h <;> decide
  have hb : c ≠ '[' := by rintro rfl; rcases hc with h | h <;> revert h <;> decide
  have ho : c ≠ '{' := by rintro rfl; rcases hc with h | h <;> revert h <;> decide
  unfold parseValue at h
  split at h
  all_goals first
    | (rename_i heq; simp only [List.cons.injEq] at heq; exact absurd heq.1 (by assumption))
    | skip
  simp only [Option.map_eq_some'] at h
  obtain ⟨x, _, hx⟩ := h
  simp only [Prod.mk.injEq] at hx
  exact ⟨_, hx.1.symm⟩

theorem FormatInt_head (v : Int) :
    ∃ c cs, (FormatInt v).data = c :: cs ∧ (isDigit c = true ∨ c = '-') := by
  unfold FormatInt
  split
  · exact ⟨'-', _, rfl, Or.inr rfl⟩
  · cases hl : natDigits (v.natAbs + 1) v.natAbs with
    | nil => exact absurd hl (natDigits_ne_nil _ _)
    | cons c cs =>
      refine ⟨c, cs, rfl, Or.inl ?_⟩
      have := natDigits_all_digits (v.natAbs + 1) v.natAbs c
      rw [hl] at this
      exact this (List.mem_cons_self _ _)

/-- No decimal numeral is a message the consumer can read: a body that is the decimal
text of a product id is refused by `json.Unmarshal` into the message struct. -/
theorem Unmarshal_decimal (v : Int) :
    Unmarshal (FormatInt v) = .error .jsonSyntax ∨ Unmarshal (FormatInt v) = .error .jsonType := by
  obtain ⟨c, cs, hdata, hc⟩ := FormatInt_head v
  have hws : skipWs (c :: cs) = c :: cs := by
    have h1 : c ≠ ' ' := by rintro rfl; rcases hc with h | h <;> revert h <;> decide
    have h2 : c ≠ '\t' := by rintro rfl; rcases hc with h | h <;> revert h <;> decide
    have h3 : c ≠ '\n' := by rintro rfl; rcases hc with h | h <;> revert h <;> decide
    have h4 : c ≠ '\r' := by rintro rfl; rcases hc with h | h <;> revert h <;> decide
    simp [skipWs, h1, h2, h3, h4]
  unfold Unmarshal parseJson
  rw [hdata, hws]
  cases hp : parseValue ((FormatInt v).length + 1) (c :: cs) with
  | none => exact Or.inl rfl
  | some vr =>
    obtain ⟨w, r⟩ := vr
    obtain ⟨lit, hlit⟩ := parseValue_numeral_head _ c cs hc w r hp
    subst hlit
    by_cases hr : skipWs r = []
    · right
      simp [hr]
    · left
      simp [hr]

/-- The first retry of a caller without the lock that finds members in the set: the
response holds, for every member, the string stored under the bare member id, which is
empty when no string is stored under that id. -/
theorem retryLoop_blank {F : Type} (env : ListEnv) (left : Nat) (ks : KeySpace)
    (key : String) (keys : List String)
    (hread : SMembers (env.faults.sMembers 1) (env.others 1 ks) SkillProductSetKey =
      .ok (key :: keys))
    (hget : ∀ k ∈ key :: keys, Get (env.faults.get k) (env.others 1 ks) k = ("", some .redisNil)) :
    (retryLoop env (left + 1) 0 ks : ListResult F).resp =
      .strings ((key :: keys).map (fun _ => "")) := by
  unfold retryLoop
  simp only [Nat.zero_add, hread]
  congr 1
  apply List.map_congr_left
  intro k hk
  rw [hget k hk]

/-- A record whose stock field is the fraction `5.5`: the script reads a number that
covers the quantity, `HINCRBY` refuses the field, the call of the script fails, and
`SkillProduct` goes on to publish and to report success. -/
theorem skillProduct_fraction_stock :
    SkillProductSrv.SkillProduct noSkillFaults "1"
        { cache := [(SkillProductSetKey, .set ["1"]),
                    (SkillProductKey "1", .hash [("stock", "5.5")])],
          published := [] } =
      ({ cache := [(SkillProductSetKey, .set ["1"]),
                   (SkillProductKey "1", .hash [("stock", "5.5")])],
         published := ["1"] }, some skillSuccess, none) := by
  decide

/-! ## The claims -/

/-- C2, as amended: the pre-deduct script run with a quantity `q`, `0 ≤ q ≤ 2^53`, on a
record whose stock field is `stock` (`none` when the field is missing, otherwise an
integer `s` within `2^53` in magnitude, the integers that Lua numbers hold exactly):
when the field is present with `s ≥ q` the stock becomes `s - q`, again such an
integer, the reply is `s - q` and no other key changes; when the field is missing or
`s < q` the reply is `-1` and the key space is unchanged. -/
theorem preDeductStockLua_contract (ks : KeySpace) (key : String) (q : Int)
    (stock : Option Int) (hq0 : 0 ≤ q) (hq : luaExact q)
    (hstock : ∀ s, stock = some s → luaExact s)
    (hget : redisHGet ks key "stock" = .ok (stock.map FormatInt)) :
    (∀ s, stock = some s → q ≤ s →
      ∃ ks', preDeductStockLua ks key (FormatInt q) = .ok (ks', s - q) ∧
        redisHGet ks' key "stock" = .ok (some (FormatInt (s - q))) ∧
        luaExact (s - q) ∧
        ∀ key', key' ≠ key → ks'.find key' = ks.find key') ∧
    ((stock = none ∨ ∃ s, stock = some s ∧ s < q) →
      preDeductStockLua ks key (FormatInt q) = .ok (ks, -1)) := by
  constructor
  · intro s hs hle
    subst hs
    have hd : luaExact (s - q) := by
      have hs2 := (hstock s rfl).2
      constructor
      · norm_num
        omega
      · norm_num at hs2 ⊢
        omega
    obtain ⟨fs, _, hrun⟩ :=
      preDeductStockLua_enough ks key s q (hstock s rfl) hq hd (by simpa using hget) hle
    refine ⟨_, hrun, ?_, hd, ?_⟩
    · rw [redisHGet_put_hash, fieldLookup_fieldSet_same]
    · intro key' hne
      exact find_put_other ks key key' _ hne
  · rintro (hnone | ⟨s, hs, hlt⟩)
    · subst hnone
      exact preDeductStockLua_missing ks key _ (by simpa using hget)
    · subst hs
      exact preDeductStockLua_short ks key s q (hstock s rfl) hq (by simpa using hget) hlt

/-- C2 as amended, on a record with stock 5 and quantity 1: the stock becomes 4 and the
reply is 4. -/
theorem preDeductStockLua_contract_witness :
    (0 : Int) ≤ 1 ∧ luaExact 1 ∧
    redisHGet [("skill:product:1", .hash [("stock", "5")])] "skill:product:1" "stock" =
      .ok ((some (5 : Int)).map FormatInt) ∧
    ∃ ks', preDeductStockLua [("skill:product:1", .hash [("stock", "5")])] "skill:product:1"
        (FormatInt 1) = .ok (ks', 5 - 1) ∧
      redisHGet ks' "skill:product:1" "stock" = .ok (some (FormatInt (5 - 1))) ∧
      luaExact (5 - 1) ∧
      ∀ key', key' ≠ "skill:product:1" →
        ks'.find key' =
          KeySpace.find [("skill:product:1", .hash [("stock", "5")])] key' :=
  ⟨by decide, by decide, by decide,
    (preDeductStockLua_contract [("skill:product:1", .hash [("stock", "5")])]
      "skill:product:1" 1 (some 5) (by decide) (by decide)
      (fun s hs => by cases hs; decide) (by decide)).1 5 rfl (by decide)⟩

/-- C2 refuted on a record with stock `2^53 + 1` and quantity 1: the stock covers the
quantity and becomes `2^53`, but the reply is `2^53 - 1`, not the new stock. The script
reads the stock as the double `2^53` and returns that less one. -/
theorem preDeductStockLua_contract_counterexample :
    redisHGet [("skill:product:1", .hash [("stock", "9007199254740993")])] "skill:product:1"
      "stock" = .ok (some (FormatInt (2 ^ 53 + 1))) ∧
    (1 : Int) ≤ 2 ^ 53 + 1 ∧
    preDeductStockLua [("skill:product:1", .hash [("stock", "9007199254740993")])]
        "skill:product:1" (FormatInt 1) =
      .ok ([("skill:product:1", .hash [("stock", "9007199254740992")])], 2 ^ 53 - 1) ∧
    (2 ^ 53 - 1 : Int) ≠ (2 ^ 53 + 1) - 1 := by
  refine ⟨by decide, by decide, by decide, by decide⟩

/-- C3: without a backend failure `releaseLock` deletes the lock key (the key is there
before and gone after) exactly when the key holds the string `token`; whenever the key
does not hold the string `token` (another token, another kind of value, or no key) the
key space after the call is the key space before it; and no other key is ever touched. -/
theorem releaseLock_owner_only (ks : KeySpace) (lockKey token : String) :
    ((ks.find lockKey ≠ none ∧ (releaseLock false ks lockKey token).find lockKey = none) ↔
      ks.find lockKey = some (.str token)) ∧
    (∀ fault, ks.find lockKey ≠ some (.str token) → releaseLock fault ks lockKey token = ks) ∧
    (∀ fault key', key' ≠ lockKey →
      (releaseLock fault ks lockKey token).find key' = ks.find key') := by
  have hmis : ∀ fault, ks.find lockKey ≠ some (.str token) →
      releaseLock fault ks lockKey token = ks := by
    intro fault hne
    cases fault
    · cases hf : ks.find lockKey with
      | none => simp [releaseLock, releaseLockLua, redisGet, hf]
      | some v =>
        cases v with
        | str w =>
          have hw : w ≠ token := by
            intro hw
            exact hne (by rw [hf, hw])
          simp [releaseLock, releaseLockLua, redisGet, hf, hw]
        | hash fs => simp [releaseLock, releaseLockLua, redisGet, hf]
        | set ms => simp [releaseLock, releaseLockLua, redisGet, hf]
    · simp [releaseLock]
  have hhit : ks.find lockKey = some (.str token) →
      releaseLock false ks lockKey token = ks.del lockKey := by
    intro hf
    simp [releaseLock, releaseLockLua, redisGet, redisDel, hf]
  refine ⟨⟨?_, ?_⟩, hmis, ?_⟩
  · rintro ⟨hex, hgone⟩
    by_contra hne
    rw [hmis false hne] at hgone
    exact hex hgone
  · intro hf
    refine ⟨by simp [hf], ?_⟩
    rw [hhit hf]
    exact find_del_same ks lockKey
  · intro fault key' hne
    by_cases hf : ks.find lockKey = some (.str token)
    · cases fault
      · rw [hhit hf]
        exact find_del_other ks lockKey key' hne
      · simp [releaseLock]
    · rw [hmis fault hf]

/-- C3, on a lock held with token `mine`: the token `mine` releases it, the token `stale`
leaves it in place. -/
theorem releaseLock_owner_only_witness :
    releaseLock false [(lockKey, .str "mine")] lockKey "stale" = [(lockKey, .str "mine")] ∧
    KeySpace.find (releaseLock false [(lockKey, .str "mine")] lockKey "mine") lockKey = none :=
  ⟨(releaseLock_owner_only [(lockKey, .str "mine")] lockKey "stale").2.1 false (by decide),
    ((releaseLock_owner_only [(lockKey, .str "mine")] lockKey "mine").1.2 (by decide)).2⟩

/-- C1, as amended: no oversell for a stock below `2^63 - 512`. For a product that is in
the membership set and whose record holds such a stock `S`, `N` successive
`SkillProduct` calls without a backend failure make exactly `min N S` calls return the
success result and the other `N - min N S` calls return the rejection for insufficient
stock; the stock after the run is `S - min N S`; and after every call the stock field
is a natural number, never a negative one. -/
theorem skillProduct_no_oversell (productId : String) (N S : Nat) (st : Hot)
    (hS : (S : Int) + 512 < 2 ^ 63)
    (hmem : redisSIsMember st.cache SkillProductSetKey productId = .ok true)
    (hget : redisHGet st.cache (SkillProductKey productId) "stock" =
      .ok (some (FormatInt (S : Int)))) :
    (runSkillProduct noSkillFaults productId N st).length = N ∧
    (runSkillProduct noSkillFaults productId N st).countP isReserved = min N S ∧
    (runSkillProduct noSkillFaults productId N st).countP isStockShort = N - min N S ∧
    redisHGet (afterSkillProducts noSkillFaults productId N st).cache (SkillProductKey productId)
        "stock" = .ok (some (FormatInt ((S - min N S : Nat) : Int))) ∧
    ∀ r ∈ runSkillProduct noSkillFaults productId N st, ∃ t : Nat,
      redisHGet r.1.cache (SkillProductKey productId) "stock" =
        .ok (some (FormatInt (t : Int))) := by
  refine ⟨?_, runSkillProduct_from_stock productId N S st hS hmem hget⟩
  clear hmem hget
  induction N generalizing st with
  | zero => rfl
  | succ n ih => simp [runSkillProduct, ih]

/-- C1 as amended, the scenario of the specification: stock 10 and 15 reservations give 10
successes, 5 rejections and the final stock 0. -/
theorem skillProduct_no_oversell_witness :
    ((10 : Nat) : Int) + 512 < 2 ^ 63 ∧
    redisSIsMember stockTen.cache SkillProductSetKey "1" = .ok true ∧
    redisHGet stockTen.cache (SkillProductKey "1") "stock" = .ok (some (FormatInt (10 : Nat))) ∧
    (runSkillProduct noSkillFaults "1" 15 stockTen).countP isReserved = min 15 10 ∧
    (runSkillProduct noSkillFaults "1" 15 stockTen).countP isStockShort = 15 - min 15 10 ∧
    redisHGet (afterSkillProducts noSkillFaults "1" 15 stockTen).cache (SkillProductKey "1")
      "stock" = .ok (some (FormatInt ((10 - min 15 10 : Nat) : Int))) :=
  have h := skillProduct_no_oversell "1" 15 10 stockTen (by norm_num) (by decide) (by decide)
  ⟨by norm_num, by decide, by decide, h.2.1, h.2.2.1, h.2.2.2.1⟩

/-- C1 refuted on the stock `2^63 - 1`, the largest a Go `int` holds: one reservation
takes a unit (the stock becomes `2^63 - 2`) and is rejected for insufficient stock, so
no call succeeds where `min 1 S = 1` should. The script's reply is the double `2^63`,
which is no `int64` and reaches Go as a negative number. -/
theorem skillProduct_no_oversell_counterexample :
    redisSIsMember stockMax.cache SkillProductSetKey "1" = .ok true ∧
    redisHGet stockMax.cache (SkillProductKey "1") "stock" =
      .ok (some (FormatInt ((2 ^ 63 - 1 : Nat) : Int))) ∧
    runSkillProduct noSkillFaults "1" 1 stockMax =
      [({ cache := [(SkillProductSetKey, .set ["1"]),
                    (SkillProductKey "1", .hash [("stock", "9223372036854775806")])],
          published := [] }, none, some .stockShort)] ∧
    (runSkillProduct noSkillFaults "1" 1 stockMax).countP isReserved = 0 ∧
    min 1 (2 ^ 63 - 1) = 1 := by
  refine ⟨by decide, by decide, by decide, by decide, by decide⟩

/-- C4, on a cold cache and a table with one product in stock: the caller gets the lock
and finds the set still empty, yet its call never reads the durable store, writes
nothing to the cache and returns the empty list, not the product in stock. -/
theorem listSkillGoods_cold_cache_not_warmed :
    SMembers false [] SkillProductSetKey = .ok [] ∧
    redisSetNX [] lockKey aloneEnv.lockValue = ([(lockKey, .str "tok")], true) ∧
    SMembers false [(lockKey, .str "tok")] SkillProductSetKey = .ok [] ∧
    SkillGoodsDao.ListSkillGoods false [sampleProduct] = .ok [sampleProduct] ∧
    SkillProductSrv.ListSkillGoods sampleLib aloneEnv [] [sampleProduct] =
      { cache := [], resp := .strings [], err := none, listReads := 0 } := by
  refine ⟨by decide, by decide, by decide, by decide, by decide⟩

/-- C5, on the sample product (primary key 7, product id 1, stock 10): written to the
cache and read back, it has the product id 7 and the stock 0. -/
theorem cache_round_trip_changes_stock_and_id :
    sampleProduct.ProductId = 1 ∧ sampleProduct.Num = 10 ∧
    GetSkillGoodsByID sampleLib false
        (syncPoructInfoToRedis sampleLib false [sampleProduct] []).1 (FormatUint 1) =
      (some { Id := 0, ProductId := 7, BossId := 2, Title := "t", Price := 200, Num := 0,
              CustomId := 0, CustomName := "" }, none) := by
  refine ⟨by decide, by decide, by decide⟩

/-- C6, as amended: two conditional decrements for the same product id take one unit
each from every row of that product while its stock is positive, and the second
decrement is rejected, leaving the table as the first left it, exactly when no row of
the product has stock left after the first. -/
theorem skillGoods_twice {F : Type} (id : Nat) (table : List (SkillProduct F)) :
    (SkillGoodsDao.SkillGoods false id (SkillGoodsDao.SkillGoods false id table).1).1 =
      table.map (fun row =>
        if row.ProductId = id ∧ row.Num > 0 then
          { row with Num := if row.Num > 1 then row.Num - 2 else 0 }
        else row) ∧
    (((SkillGoodsDao.SkillGoods false id (SkillGoodsDao.SkillGoods false id table).1).2 =
          some (.noRowUpdated id) ∧
        (SkillGoodsDao.SkillGoods false id (SkillGoodsDao.SkillGoods false id table).1).1 =
          (SkillGoodsDao.SkillGoods false id table).1) ↔
      ∀ row ∈ (SkillGoodsDao.SkillGoods false id table).1, row.ProductId = id → row.Num ≤ 0) := by
  constructor
  · rw [skillGoods_table, skillGoods_table, List.map_map]
    apply List.map_congr_left
    intro row _
    simp only [Function.comp]
    by_cases h1 : row.ProductId = id ∧ row.Num > 0
    · by_cases h2 : row.Num > 1
      · have h3 : row.Num - 1 > 0 := by omega
        simp only [h1, h2, h3, and_self, if_true]
        congr 1
        omega
      · have h3 : ¬ (row.Num - 1 > 0) := by omega
        simp only [h1, h2, h3, and_self, and_false, if_true, if_false]
        congr 1
        omega
    · simp [h1]
  · constructor
    · intro h
      exact (skillGoods_rejects_iff id _).mp h.1
    · intro h
      exact ⟨(skillGoods_rejects_iff id _).mpr h, skillGoods_rejected_table id _ h⟩

/-- C6 refuted on a row with stock 10: one decrement leaves 9, the same decrement
applied twice leaves 8, and the second application is not rejected. -/
theorem skillGoods_twice_counterexample :
    (SkillGoodsDao.SkillGoods false 1 [sampleProduct]).1 = [{ sampleProduct with Num := 9 }] ∧
    SkillGoodsDao.SkillGoods false 1 (SkillGoodsDao.SkillGoods false 1 [sampleProduct]).1 =
      ([{ sampleProduct with Num := 8 }], none) := by
  refine ⟨by decide, by decide⟩

/-- C7, as amended: when the decrement for a well-formed message reports that no row
of the product has stock left, the consumer answers the delivery with
`Nack(false, true)`: the message is requeued, not acknowledged, and the table is
unchanged. -/
theorem consumer_requeues_on_insufficient_stock {F : Type} (msg : Delivery) (deductMsg : ProductMQ)
    (table : List (SkillProduct F))
    (hbody : Unmarshal msg.Body = .ok deductMsg) (hdb : msg.dbFault = false)
    (hack : msg.ackFault = false)
    (hshort : ∀ row ∈ table, row.ProductId = deductMsg.ProductId → row.Num ≤ 0) :
    (productMySQLStock false deductMsg.ProductId table).2 =
      some (.noRowUpdated deductMsg.ProductId) ∧
    handleDelivery msg table = (table, .nack true) ∧
    StartDeductStockConsumer false [msg] table = (table, [.nack true], none) := by
  have herr := (skillGoods_rejects_iff deductMsg.ProductId table).mpr hshort
  have htab := skillGoods_rejected_table deductMsg.ProductId table hshort
  have hpair : SkillGoodsDao.SkillGoods false deductMsg.ProductId table =
      (table, some (.noRowUpdated deductMsg.ProductId)) := by
    exact Prod.ext htab herr
  have hhandle : handleDelivery msg table = (table, .nack true) := by
    simp [handleDelivery, hbody, hdb, productMySQLStock, hpair]
  refine ⟨by simpa [productMySQLStock] using herr, hhandle, ?_⟩
  simp [StartDeductStockConsumer, consumeLoop, hack, hhandle]

/-- C7 as amended, on a well-formed message for product 1 whose row holds stock 0. -/
theorem consumer_requeues_on_insufficient_stock_witness :
    Unmarshal sampleBody = .ok { ProductId := 1 } ∧
    StartDeductStockConsumer false
        [{ Body := sampleBody, dbFault := false, ackFault := false }]
        [{ sampleProduct with Num := 0 }] =
      ([{ sampleProduct with Num := 0 }], [.nack true], none) :=
  ⟨by decide,
    (consumer_requeues_on_insufficient_stock
      { Body := sampleBody, dbFault := false, ackFault := false } { ProductId := 1 }
      [{ sampleProduct with Num := 0 }] (by decide) rfl rfl (by decide)).2.2⟩

/-- C7 refuted on a well-formed message for product 1 whose row holds stock 0: the
decrement reports insufficient stock and the delivery is answered with a requeue, not
with an acknowledgement. -/
theorem consumer_ack_counterexample :
    (productMySQLStock false 1 [{ sampleProduct with Num := 0 }]).2 = some (.noRowUpdated 1) ∧
    (handleDelivery { Body := sampleBody, dbFault := false, ackFault := false }
        [{ sampleProduct with Num := 0 }]).2 = .nack true ∧
    (handleDelivery { Body := sampleBody, dbFault := false, ackFault := false }
        [{ sampleProduct with Num := 0 }]).2 ≠ .ack := by
  refine ⟨by decide, by decide, by decide⟩

/-- C8, on the warm cache with stock 10 when the call of the script fails: no stock is
taken, and yet the message is published and the call returns the success result with
a nil error. -/
theorem skillProduct_eval_failure_reports_success :
    evalPreDeductStock true stockTen.cache (SkillProductKey "1") 1 =
      (stockTen.cache, 0, some .backend) ∧
    SkillProductSrv.SkillProduct { sIsMember := false, eval := true, publish := false } "1" stockTen =
      ({ cache := stockTen.cache, published := ["1"] }, some skillSuccess, none) := by
  refine ⟨by decide, by decide⟩

/-- C9, as amended: a product id outside the membership set is rejected with the nil
error and the nil response and changes nothing; a reservation whose scripted decrement
replies with a negative number is rejected with the error of insufficient stock, not
the nil error, and the nil response; in both cases nothing is published. -/
theorem skillProduct_rejections (faults : SkillFaults) (productId : String) (st : Hot) :
    (SIsMember faults.sIsMember st.cache SkillProductSetKey productId = .ok false →
      SkillProductSrv.SkillProduct faults productId st = (st, none, none)) ∧
    (SIsMember faults.sIsMember st.cache SkillProductSetKey productId = .ok true →
      (evalPreDeductStock faults.eval st.cache (SkillProductKey productId) 1).2.1 < 0 →
      (SkillProductSrv.SkillProduct faults productId st).2 = (none, some .stockShort) ∧
      (SkillProductSrv.SkillProduct faults productId st).1.published = st.published) := by
  constructor
  · intro h
    simp [SkillProductSrv.SkillProduct, h]
  · intro h hneg
    simp [SkillProductSrv.SkillProduct, h, hneg]

/-- C9 as amended, on the sold-out product `1` and on the unknown product `2`. -/
theorem skillProduct_rejections_witness :
    SkillProductSrv.SkillProduct noSkillFaults "2" soldOut = (soldOut, none, none) ∧
    (SkillProductSrv.SkillProduct noSkillFaults "1" soldOut).2 = (none, some .stockShort) ∧
    (SkillProductSrv.SkillProduct noSkillFaults "1" soldOut).1.published = soldOut.published :=
  ⟨(skillProduct_rejections noSkillFaults "2" soldOut).1 (by decide),
    (skillProduct_rejections noSkillFaults "1" soldOut).2 (by decide) (by decide)⟩

/-- C9 refuted on the sold-out product `1`: the scripted decrement replies `-1` and the
error returned is not nil. -/
theorem skillProduct_stock_short_counterexample :
    evalPreDeductStock false soldOut.cache (SkillProductKey "1") 1 = (soldOut.cache, -1, none) ∧
    (SkillProductSrv.SkillProduct noSkillFaults "1" soldOut).2.2 ≠ none := by
  refine ⟨by decide, by decide⟩

/-- C10, on product `1`: the body published after the reservation is the text `1`,
which the consumer cannot read into its message struct; the delivery is dropped with
`Nack(false, false)` and the table keeps its stock. The text that `string` makes of an
integer 1 is refused as well, while the JSON object with `product_id` is read. -/
theorem published_body_dropped_by_consumer :
    (SkillProductSrv.SkillProduct noSkillFaults "1" stockTen).1.published = ["1"] ∧
    Unmarshal "1" = .error .jsonType ∧
    StartDeductStockConsumer false [{ Body := "1", dbFault := false, ackFault := false }]
        [sampleProduct] = ([sampleProduct], [.nack false], none) ∧
    Unmarshal (String.mk [Char.ofNat 1]) = .error .jsonSyntax ∧
    Unmarshal sampleBody = .ok { ProductId := 1 } := by
  refine ⟨by decide, by decide, by decide, by decide, by decide⟩

/-- C11, on a cold cache whose lock another client holds and fills with the sample
product during the caller's first sleep: the retry finds the member `1` and the call
returns one empty string, while `ListSkillGoodsByIDs` for that membership set, and so
a caller that finds the cache warm, returns the marshalled product. -/
theorem listSkillGoods_retry_differs_from_warm :
    SMembers false lockedCold SkillProductSetKey = .ok [] ∧
    redisSetNX lockedCold lockKey loserEnv.lockValue = (lockedCold, false) ∧
    SMembers false warmedCache SkillProductSetKey = .ok ["1"] ∧
    Get false warmedCache "1" = ("", some .redisNil) ∧
    (SkillProductSrv.ListSkillGoods sampleLib loserEnv lockedCold [sampleProduct]).resp =
      .strings [""] ∧
    (SkillProductSrv.ListSkillGoods sampleLib loserEnv lockedCold [sampleProduct]).err = none ∧
    (SkillProductSrv.ListSkillGoods sampleLib loserEnv lockedCold [sampleProduct]).cache =
      warmedCache ∧
    ListSkillGoodsByIDs sampleLib (fun _ => false) warmedCache ["1"] =
      (.strings ["7:0"], none) ∧
    (SkillProductSrv.ListSkillGoods sampleLib aloneEnv warmedCache [sampleProduct]).resp =
      .strings ["7:0"] := by
  refine ⟨by decide, by decide, by decide, by decide, by decide, by decide, by decide,
    by decide, by decide⟩

end GinMall
